import Mathlib

/-!
Verification of `runprogram` (kern/syscall/runprogram.c).

A shallow embedding of `runprogram`: the bootstrap that opens an executable,
creates and installs an address space, loads the image, copies the argument
strings and the argv pointer table to the user stack and enters user mode.

Machine integers (`vaddr_t`, `size_t`) are 32-bit words, written as `Nat`
with explicit reduction modulo `WORD`.  The external collaborators
(`kmalloc`, `vfs_open`, `as_create`, `load_elf`, `as_define_stack`, `copyout`)
are an oracle `Collab`; every call is logged in a trace of events.
-/

namespace RunProgram

/-! ## Machine arithmetic -/

/-- Number of values of a 32-bit machine word (`vaddr_t`, `size_t`). -/
def WORD : Nat := 2 ^ 32

/-- Unsigned 32-bit subtraction `a - b`. -/
def sub32 (a b : Nat) : Nat := (a + WORD - b % WORD) % WORD

/-- Modelled from the spec: the macro `ROUNDUP(a, b)` (declared in lib.h, which
is not part of src/) rounds `a` up to the next multiple of `b`; on `size_t` and
`vaddr_t` operands it is evaluated in unsigned 32-bit arithmetic as
`((a + b - 1) / b) * b`. -/
def ROUNDUP (a b : Nat) : Nat := ((a + b - 1) % WORD / b * b) % WORD

/-! ## Strings in kernel memory, bytes in user memory -/

/-- The C string held in a kernel buffer: the bytes before the first zero byte.
A buffer is the list of bytes found at a `char *`; what lies past its end reads
as zero, so every buffer is nul-terminated. -/
def cstring (buf : List Nat) : List Nat := buf.takeWhile (fun b => b ≠ 0)

/-- The function `strlen`: number of bytes before the terminator. -/
def strlen (buf : List Nat) : Nat := (cstring buf).length

/-- The `n` bytes found at a kernel pointer. -/
def kread (buf : List Nat) (n : Nat) : List Nat :=
  (List.range n).map (fun k => buf.getD k 0)

/-- User memory after `bs` has been stored at `dst`, `dst + 1`, ... -/
def writeBytes (mem : Nat → Nat) (dst : Nat) (bs : List Nat) : Nat → Nat :=
  fun a => if dst ≤ a ∧ a < dst + bs.length then bs.getD (a - dst) 0 else mem a

/-- The four bytes of a `vaddr_t` as they lie in memory, in the byte order of
the machine. -/
def wordBytes (bigEndian : Bool) (v : Nat) : List Nat :=
  if bigEndian then [v / 2 ^ 24 % 256, v / 2 ^ 16 % 256, v / 2 ^ 8 % 256, v % 256]
  else [v % 256, v / 2 ^ 8 % 256, v / 2 ^ 16 % 256, v / 2 ^ 24 % 256]

/-- The 4-byte word stored in user memory at address `a`. -/
def readWord (bigEndian : Bool) (mem : Nat → Nat) (a : Nat) : Nat :=
  if bigEndian then mem a * 2 ^ 24 + mem (a + 1) * 2 ^ 16 + mem (a + 2) * 2 ^ 8 + mem (a + 3)
  else mem a + mem (a + 1) * 2 ^ 8 + mem (a + 2) * 2 ^ 16 + mem (a + 3) * 2 ^ 24

/-- Decoding of user memory at `a` up to and including the first zero byte;
`none` when no zero byte is met within `fuel` bytes. -/
def readCStr (mem : Nat → Nat) : Nat → Nat → Option (List Nat)
  | 0, _ => none
  | fuel + 1, a =>
    if mem a = 0 then some [0]
    else (readCStr mem fuel (a + 1)).map (fun r => mem a :: r)

/-! ## Collaborators, events and state -/

/-- Kernel heap blocks that `runprogram` passes to `kfree`: the owned pointer
table `argv`, the destination-address table `argPtrs`, and `argv[i]`, which
aliases the string `args[i]` of the caller. -/
inductive KPtr
  | argv
  | argPtrs
  | arg (i : Nat)
  deriving DecidableEq, Repr

/-- Calls made by `runprogram` to its collaborators, in program order. -/
inductive Event
  | kmalloc (size : Nat)
  | kfree (p : KPtr)
  | vfs_open
  | vfs_close (v : Nat)
  | as_create
  | curproc_setas (asp : Option Nat)
  | as_activate
  | as_deactivate
  | as_destroy (asp : Option Nat)
  | load_elf (v : Nat)
  | as_define_stack (asp : Nat)
  | copyout (dst : Nat) (bytes : List Nat) (result : Nat)
  | enter_new_process (argc argv stackptr entrypoint : Nat)
  deriving DecidableEq, Repr

/-- Platform constants absent from src/ and the answers of the collaborators.
Result codes are `0` for success.  `copyout k` is the result of the `k`-th call
of `copyout` (counted from 0). -/
structure Collab where
  USERSTACK : Nat
  ENOMEM : Nat
  bigEndian : Bool
  kmalloc_argv : Bool
  vfs_open : Nat × Nat
  as_create : Option Nat
  load_elf : Nat × Nat
  as_define_stack : Nat × Nat
  kmalloc_argPtrs : Bool
  copyout : Nat → Nat

/-- Kernel state seen by `runprogram`: the current address space of the
process, user memory, the number of `copyout` calls made and the event trace. -/
structure KState where
  curas : Option Nat
  mem : Nat → Nat
  ncopy : Nat
  trace : List Event

/-- Local variables of `runprogram` that live across the copy loops. -/
structure Locals where
  result : Nat
  stackptr : Nat
  argPtrs : List Nat

/-- How a call of `runprogram` ends: it returns a code; or it calls
`enter_new_process`, which does not return; or the `KASSERT` of line 84 fails,
which is fatal (the kernel panics and nothing is returned); or its behaviour is
undefined. -/
inductive Outcome
  | returned (code : Nat)
  | entered (argc argv stackptr entrypoint : Nat)
  | assertFailed
  | undefinedBehaviour
  deriving DecidableEq, Repr

/-- Append events to the trace. -/
def KState.log (st : KState) (es : List Event) : KState :=
  { st with trace := st.trace ++ es }

/-- One call `copyout(src, dst, len)` where `bytes` are the `len` bytes at `src`:
the result comes from the oracle; on success user memory receives exactly the
bytes given.  What a failed copy leaves in user memory is not known from the
source; the model leaves memory as it was, and no statement below reads user
memory after a failed copy. -/
def copyout (c : Collab) (bytes : List Nat) (dst : Nat) (st : KState) : Nat × KState :=
  let result := c.copyout st.ncopy
  (result,
   { st with
     mem := if result = 0 then writeBytes st.mem dst bytes else st.mem
     ncopy := st.ncopy + 1
     trace := st.trace ++ [Event.copyout dst bytes result] })

/-! ## The program -/

/-- Lines 131-159: `for (i = argc-1; i >= 0; --i)`, with `n = i + 1` iterations
left.  The loop stops at the first failing `copyout`, leaving its code in
`result`. -/
def stringLoop (c : Collab) (argv : List (List Nat)) : Nat → Locals → KState → Locals × KState
  | 0, l, st => (l, st)
  | i + 1, l, st =>
    let curArgLen := (strlen (argv.getD i []) + 1) % WORD
    let argLen := ROUNDUP curArgLen 4
    let stackptr := sub32 l.stackptr (argLen * 1 % WORD)
    let r := copyout c (kread (argv.getD i []) curArgLen) stackptr st
    if r.1 ≠ 0 then ({ l with result := r.1, stackptr := stackptr }, r.2)
    else stringLoop c argv i
      { result := r.1, stackptr := stackptr, argPtrs := l.argPtrs.set i stackptr } r.2

/-- Lines 164-181: `for (i = argc; i >= 0; --i)`, with `n = i + 1` iterations
left. -/
def pointerLoop (c : Collab) : Nat → Locals → KState → Locals × KState
  | 0, l, st => (l, st)
  | i + 1, l, st =>
    let stackptr := sub32 l.stackptr 4
    let r := copyout c (wordBytes c.bigEndian (l.argPtrs.getD i 0)) stackptr st
    if r.1 ≠ 0 then ({ l with result := r.1, stackptr := stackptr }, r.2)
    else pointerLoop c i { l with result := r.1, stackptr := stackptr } r.2

/-- Lines 131-181: the string loop, the null terminator of the destination
table, and the pointer loop (not entered when a string copy failed). -/
def copyArgs (c : Collab) (argv : List (List Nat)) (argc : Nat) (l : Locals) (st : KState) :
    Locals × KState :=
  let r := stringLoop c argv argc l st
  if r.1.result ≠ 0 then r
  else pointerLoop c (argc + 1) { r.1 with argPtrs := r.1.argPtrs.set argc 0 } r.2

/-- The cleanup block repeated at lines 120-127, 146-154 and 170-178:
`kfree(argPtrs)` (absent at line 120), `kfree(argv[i])` for each `i`,
`kfree(argv)`, `as_deactivate()`, `as = curproc_setas(NULL)`, `as_destroy(as)`. -/
def unwind (argc : Nat) (freeArgPtrs : Bool) (st : KState) : KState :=
  { st with
    curas := none
    trace := st.trace ++ (if freeArgPtrs then [Event.kfree KPtr.argPtrs] else [])
      ++ (List.range argc).map (fun i => Event.kfree (KPtr.arg i))
      ++ [Event.kfree KPtr.argv, Event.as_deactivate, Event.curproc_setas none,
          Event.as_destroy st.curas] }

/-- Lines 189-195: the stack pointer handed to the new program. -/
def finalStackptr (USERSTACK stackptr : Nat) : Nat :=
  let baseAddress := USERSTACK
  let offset := ROUNDUP (sub32 USERSTACK stackptr) 8
  sub32 baseAddress offset

/-- The function `runprogram(progname, args, nargs)` with `nargs = args.length`,
started with current address space `curas` and user memory `mem`.
`(argc + 1) * sizeof(char *)` must not overflow `size_t`: otherwise the tables
are too short for the stores that follow and the behaviour is undefined. -/
def runprogram (c : Collab) (args : List (List Nat)) (curas : Option Nat) (mem : Nat → Nat) :
    Outcome × KState :=
  let st : KState := { curas := curas, mem := mem, ncopy := 0, trace := [] }
  let nargs := args.length
  if WORD ≤ (nargs + 1) * 4 then (Outcome.undefinedBehaviour, st) else
  let argc := nargs
  let st := st.log [Event.kmalloc ((argc + 1) * 4)]
  if c.kmalloc_argv = false then (Outcome.returned c.ENOMEM, st) else
  let argv := args
  let st := st.log [Event.vfs_open]
  if c.vfs_open.1 ≠ 0 then (Outcome.returned c.vfs_open.1, st) else
  let v := c.vfs_open.2
  if st.curas ≠ none then (Outcome.assertFailed, st) else
  let st := st.log [Event.as_create]
  match c.as_create with
  | none => (Outcome.returned c.ENOMEM, st.log [Event.vfs_close v])
  | some asp =>
    let st := { st with curas := some asp }.log [Event.curproc_setas (some asp), Event.as_activate]
    let st := st.log [Event.load_elf v]
    if c.load_elf.1 ≠ 0 then (Outcome.returned c.load_elf.1, st.log [Event.vfs_close v]) else
    let entrypoint := c.load_elf.2
    let st := st.log [Event.vfs_close v]
    let st := st.log [Event.as_define_stack asp]
    if c.as_define_stack.1 ≠ 0 then (Outcome.returned c.as_define_stack.1, st) else
    let stackptr := c.as_define_stack.2
    let st := st.log [Event.kmalloc ((argc + 1) * 4)]
    if c.kmalloc_argPtrs = false then (Outcome.returned c.ENOMEM, unwind argc false st) else
    let r := copyArgs c argv argc
      { result := 0, stackptr := stackptr, argPtrs := List.replicate (argc + 1) 0 } st
    if r.1.result ≠ 0 then (Outcome.returned r.1.result, unwind argc true r.2) else
    let st := r.2.log [Event.kfree KPtr.argPtrs]
    let argvPtr := r.1.stackptr
    let stackptr := finalStackptr c.USERSTACK r.1.stackptr
    (Outcome.entered argc argvPtr stackptr entrypoint,
     st.log [Event.enter_new_process argc argvPtr stackptr entrypoint])

/-! ## Quantities used in the statements -/

/-- Stack bytes reserved for one argument: `ROUNDUP(strlen(arg) + 1, 4)` as
computed at lines 134-136. -/
def argLen (buf : List Nat) : Nat := ROUNDUP ((strlen buf + 1) % WORD) 4

/-- Stack bytes reserved for the arguments of index below `n`. -/
def used (argv : List (List Nat)) (n : Nat) : Nat := ((argv.take n).map argLen).sum

/-- Whether an event is a call of `copyout`. -/
def isCopyout : Event → Bool
  | Event.copyout _ _ _ => true
  | _ => false

/-- Whether an event is a call of `enter_new_process`. -/
def isEnter : Event → Bool
  | Event.enter_new_process _ _ _ _ => true
  | _ => false

/-- The calls of `copyout` in a trace. -/
def copyouts (tr : List Event) : List Event := tr.filter isCopyout

/-- The calls of `enter_new_process` in a trace. -/
def enters (tr : List Event) : List Event := tr.filter isEnter

/-- The kernel state when the copy loops are reached (line 131): address space
`asp` installed, image `v` loaded and closed, stack defined, both tables
allocated. -/
def preCopyState (args : List (List Nat)) (mem : Nat → Nat) (asp v : Nat) : KState :=
  { curas := some asp
    mem := mem
    ncopy := 0
    trace := [Event.kmalloc ((args.length + 1) * 4), Event.vfs_open, Event.as_create,
      Event.curproc_setas (some asp), Event.as_activate, Event.load_elf v, Event.vfs_close v,
      Event.as_define_stack asp, Event.kmalloc ((args.length + 1) * 4)] }

/-- The locals when the copy loops are reached: `stackptr` as returned by
`as_define_stack`, `argPtrs` freshly allocated with `argc + 1` entries. -/
def preCopyLocals (args : List (List Nat)) (s0 : Nat) : Locals :=
  { result := 0, stackptr := s0, argPtrs := List.replicate (args.length + 1) 0 }

/-- What a run `r` of at most `n` iterations of a copy loop started in `st`
does to the kernel state, whatever the oracle answers: only `copyout` events are
added, one per call, the current address space is untouched, and the loop runs
up to the first failing call, whose code is the result. -/
structure CopyRun (c : Collab) (n : Nat) (st : KState) (r : Locals × KState) : Prop where
  curas : r.2.curas = st.curas
  trace : ∃ es, r.2.trace = st.trace ++ es ∧ (∀ e ∈ es, isCopyout e = true) ∧
    st.ncopy + es.length = r.2.ncopy
  le : r.2.ncopy ≤ st.ncopy + n
  ok : r.1.result = 0 → r.2.ncopy = st.ncopy + n ∧
    ∀ k, st.ncopy ≤ k → k < r.2.ncopy → c.copyout k = 0
  fail : r.1.result ≠ 0 → st.ncopy < r.2.ncopy ∧ c.copyout (r.2.ncopy - 1) = r.1.result ∧
    ∀ k, st.ncopy ≤ k → k + 1 < r.2.ncopy → c.copyout k = 0

/-- Locals after one successful iteration of the string loop at index `i`
(under the no-wrap conditions). -/
def stringStepL (argv : List (List Nat)) (i : Nat) (l : Locals) : Locals :=
  { result := 0
    stackptr := l.stackptr - argLen (argv.getD i [])
    argPtrs := l.argPtrs.set i (l.stackptr - argLen (argv.getD i [])) }

/-- Kernel state after one successful iteration of the string loop at index `i`
(under the no-wrap conditions). -/
def stringStepS (argv : List (List Nat)) (i : Nat) (l : Locals) (st : KState) : KState :=
  { curas := st.curas
    mem := writeBytes st.mem (l.stackptr - argLen (argv.getD i [])) (cstring (argv.getD i []) ++ [0])
    ncopy := st.ncopy + 1
    trace := st.trace ++ [Event.copyout (l.stackptr - argLen (argv.getD i []))
      (cstring (argv.getD i []) ++ [0]) 0] }

/-- Locals after one successful iteration of the pointer loop (under the
no-wrap conditions). -/
def ptrStepL (l : Locals) : Locals :=
  { result := 0, stackptr := l.stackptr - 4, argPtrs := l.argPtrs }

/-- Kernel state after one successful iteration of the pointer loop at index
`i` (under the no-wrap conditions). -/
def ptrStepS (c : Collab) (i : Nat) (l : Locals) (st : KState) : KState :=
  { curas := st.curas
    mem := writeBytes st.mem (l.stackptr - 4) (wordBytes c.bigEndian (l.argPtrs.getD i 0))
    ncopy := st.ncopy + 1
    trace := st.trace ++ [Event.copyout (l.stackptr - 4)
      (wordBytes c.bigEndian (l.argPtrs.getD i 0)) 0] }

/-- The argument list `["prog", "a", "bb"]` as kernel buffers (ASCII bytes). -/
def progArgs : List (List Nat) := [[112, 114, 111, 103], [97], [98, 98]]

/-- A collaborator oracle for which every call succeeds: user stack at
`0x80000000`, entry point `0x400000`. -/
def okCollab : Collab where
  USERSTACK := 0x80000000
  ENOMEM := 3
  bigEndian := true
  kmalloc_argv := true
  vfs_open := (0, 7)
  as_create := some 1
  load_elf := (0, 0x400000)
  as_define_stack := (0, 0x80000000)
  kmalloc_argPtrs := true
  copyout := fun _ => 0

/-- The oracle `okCollab` with `load_elf` failing with code 8. -/
def loadFailCollab : Collab := { okCollab with load_elf := (8, 0) }

/-- The oracle `okCollab` with the `copyout` call of index 4 (the second word
of the pointer table for three arguments) failing with code 6. -/
def copyFailCollab : Collab := { okCollab with copyout := fun k => if k = 4 then 6 else 0 }

/-- The events of the cleanup block `unwind` when the current address space is
`asp`. -/
def unwindEvents (argc : Nat) (freeArgPtrs : Bool) (asp : Option Nat) : List Event :=
  (if freeArgPtrs then [Event.kfree KPtr.argPtrs] else [])
    ++ (List.range argc).map (fun i => Event.kfree (KPtr.arg i))
    ++ [Event.kfree KPtr.argv, Event.as_deactivate, Event.curproc_setas none,
        Event.as_destroy asp]

/-- A kernel state with zeroed user memory and empty trace. -/
def zeroState : KState := { curas := some 1, mem := fun _ => 0, ncopy := 0, trace := [] }

/-- Whether an event is a call of `vfs_close`. -/
def isClose : Event → Bool
  | Event.vfs_close _ => true
  | _ => false

/-- The calls of `vfs_close` in a trace. -/
def closes (tr : List Event) : List Event := tr.filter isClose

/-- The oracle `okCollab` with `vfs_open` failing with code 2. -/
def openFailCollab : Collab := { okCollab with vfs_open := (2, 0) }

/-- The oracle `okCollab` with the allocation of `argPtrs` failing. -/
def argPtrsFailCollab : Collab := { okCollab with kmalloc_argPtrs := false }

/-- Lowest address stored by a call of `copyout`. -/
def Event.lo : Event → Nat
  | Event.copyout dst _ _ => dst
  | _ => 0

/-- End (one past the highest address) of the bytes stored by a call of
`copyout`. -/
def Event.hi : Event → Nat
  | Event.copyout dst bytes _ => dst + bytes.length
  | _ => 0

/-- Whether address `a` is among the bytes stored by the event, a call of
`copyout`. -/
def covers (e : Event) (a : Nat) : Bool :=
  isCopyout e && decide (e.lo ≤ a) && decide (a < e.hi)

/-- Whether some `copyout` of the trace stores a byte at address `a`. -/
def written (tr : List Event) (a : Nat) : Bool := tr.any (fun e => covers e a)

/-- The `copyout` calls of the string loop started with cursor `S` and `n`
iterations left, every copy succeeding and no address wrapping: indices
`n - 1, ..., 0` in turn. -/
def stringEvents (argv : List (List Nat)) (S n : Nat) : List Event :=
  (List.range n).reverse.map (fun i =>
    Event.copyout (S - used argv n + used argv i) (cstring (argv.getD i []) ++ [0]) 0)

/-- The `copyout` calls of the pointer loop started with cursor `S` and `n`
iterations left, every copy succeeding and no address wrapping. -/
def ptrEvents (bigEndian : Bool) (ptrs : List Nat) (S n : Nat) : List Event :=
  (List.range n).reverse.map (fun i =>
    Event.copyout (S - 4 * n + 4 * i) (wordBytes bigEndian (ptrs.getD i 0)) 0)

/-! ## Arithmetic lemmas -/

theorem WORD_eq : WORD = 4294967296 := by decide

theorem sub32_of_le {a b : Nat} (hb : b ≤ a) (ha : a < WORD) : sub32 a b = a - b := by
  unfold sub32
  rw [WORD_eq] at *
  omega

theorem sub32_lt (a b : Nat) : sub32 a b < WORD := by
  unfold sub32
  exact Nat.mod_lt _ (by decide)

theorem ROUNDUP_four {a : Nat} (ha : a + 3 < WORD) : ROUNDUP a 4 = (a + 3) / 4 * 4 := by
  unfold ROUNDUP
  rw [WORD_eq] at *
  omega

theorem ROUNDUP_eight {a : Nat} (ha : a + 7 < WORD) : ROUNDUP a 8 = (a + 7) / 8 * 8 := by
  unfold ROUNDUP
  rw [WORD_eq] at *
  omega

theorem ROUNDUP_eight_mod (a : Nat) : ROUNDUP a 8 % 8 = 0 := by
  unfold ROUNDUP
  rw [WORD_eq]
  omega

theorem ROUNDUP_lt (a b : Nat) : ROUNDUP a b < WORD := by
  unfold ROUNDUP
  exact Nat.mod_lt _ (by decide)

theorem argLen_eq {buf : List Nat} (h : strlen buf + 4 < WORD) :
    argLen buf = (strlen buf + 4) / 4 * 4 := by
  unfold argLen
  have h1 : (strlen buf + 1) % WORD = strlen buf + 1 := Nat.mod_eq_of_lt (by omega)
  rw [h1, ROUNDUP_four (by omega)]

theorem argLen_bounds {buf : List Nat} (h : strlen buf + 4 < WORD) :
    strlen buf + 1 ≤ argLen buf ∧ argLen buf ≤ strlen buf + 4 ∧ argLen buf % 4 = 0 := by
  rw [argLen_eq h]
  omega

theorem used_succ {argv : List (List Nat)} {n : Nat} (h : n < argv.length) :
    used argv (n + 1) = used argv n + argLen (argv.getD n []) := by
  unfold used
  rw [List.take_succ, List.getD_eq_getElem?_getD, List.getElem?_eq_getElem h]
  simp only [Option.toList, List.map_append, List.sum_append, List.map_cons, List.map_nil,
    List.sum_cons, List.sum_nil, Option.getD_some, Nat.add_zero]

theorem used_zero (argv : List (List Nat)) : used argv 0 = 0 := by
  simp [used]

theorem used_length (argv : List (List Nat)) : used argv argv.length = (argv.map argLen).sum := by
  simp [used]

theorem used_mono {argv : List (List Nat)} {i n : Nat} (hin : i ≤ n) (hn : n ≤ argv.length) :
    used argv i ≤ used argv n := by
  induction n with
  | zero =>
    have : i = 0 := by omega
    subst this
    exact le_refl _
  | succ m ih =>
    rcases Nat.lt_or_ge i (m + 1) with h | h
    · have := ih (by omega) (by omega)
      rw [used_succ (by omega)]
      omega
    · have : i = m + 1 := by omega
      subst this
      exact le_refl _

/-! ## Strings and words in memory -/

theorem kread_cons (b : Nat) (buf : List Nat) (n : Nat) :
    kread (b :: buf) (n + 1) = b :: kread buf n := by
  unfold kread
  rw [List.range_succ_eq_map]
  simp [Function.comp_def]

theorem kread_cstring (buf : List Nat) : kread buf (strlen buf + 1) = cstring buf ++ [0] := by
  induction buf with
  | nil => simp [kread, strlen, cstring, List.range_succ]
  | cons b buf ih =>
    by_cases hb : b = 0
    · subst hb
      simp [kread, strlen, cstring, List.range_succ]
    · have h1 : cstring (b :: buf) = b :: cstring buf := by
        simp [cstring, List.takeWhile_cons, hb]
      have h2 : strlen (b :: buf) = strlen buf + 1 := by
        simp [strlen, h1]
      rw [h2, kread_cons, ih, h1]
      rfl

theorem cstring_ne_zero (buf : List Nat) : ∀ b ∈ cstring buf, b ≠ 0 := by
  intro b hb
  have := List.mem_takeWhile_imp hb
  simpa using this

theorem readCStr_of_bytes (mem : Nat → Nat) :
    ∀ (s : List Nat) (a fuel : Nat), (∀ b ∈ s, b ≠ 0) →
      (∀ k, k ≤ s.length → mem (a + k) = (s ++ [0]).getD k 0) → s.length < fuel →
      readCStr mem fuel a = some (s ++ [0]) := by
  intro s
  induction s with
  | nil =>
    intro a fuel _ hm hf
    obtain ⟨f, rfl⟩ : ∃ f, fuel = f + 1 := ⟨fuel - 1, by simp at hf; omega⟩
    have := hm 0 (le_refl _)
    simp at this
    simp [readCStr, this]
  | cons b s ih =>
    intro a fuel hs hm hf
    obtain ⟨f, rfl⟩ : ∃ f, fuel = f + 1 := ⟨fuel - 1, by simp at hf; omega⟩
    have h0 := hm 0 (Nat.zero_le _)
    simp at h0
    have hb : b ≠ 0 := hs b (List.mem_cons_self _ _)
    have hrest := ih (a + 1) f (fun x hx => hs x (List.mem_cons_of_mem _ hx))
      (fun k hk => by
        have := hm (k + 1) (by simp; omega)
        rw [show a + (k + 1) = a + 1 + k by omega] at this
        simpa using this)
      (by simp at hf; omega)
    simp [readCStr, h0, hb, hrest]

theorem readWord_wordBytes (be : Bool) (mem : Nat → Nat) (a v : Nat) (hv : v < WORD)
    (h : ∀ k, k < 4 → mem (a + k) = (wordBytes be v).getD k 0) : readWord be mem a = v := by
  have h0 := h 0 (by omega)
  have h1 := h 1 (by omega)
  have h2 := h 2 (by omega)
  have h3 := h 3 (by omega)
  rw [WORD_eq] at hv
  cases be <;> simp [wordBytes] at h0 h1 h2 h3 <;> simp only [readWord, h0, h1, h2, h3] <;>
    simp <;> omega

/-! ## The string loop when every copy succeeds -/

theorem stringStepL_stackptr (argv : List (List Nat)) (i : Nat) (l : Locals) :
    (stringStepL argv i l).stackptr = l.stackptr - argLen (argv.getD i []) := rfl

theorem stringStepL_argPtrs (argv : List (List Nat)) (i : Nat) (l : Locals) :
    (stringStepL argv i l).argPtrs = l.argPtrs.set i (l.stackptr - argLen (argv.getD i [])) :=
  rfl

theorem stringStepS_mem (argv : List (List Nat)) (i : Nat) (l : Locals) (st : KState) :
    (stringStepS argv i l st).mem =
      writeBytes st.mem (l.stackptr - argLen (argv.getD i [])) (cstring (argv.getD i []) ++ [0]) :=
  rfl

theorem stringStepS_ncopy (argv : List (List Nat)) (i : Nat) (l : Locals) (st : KState) :
    (stringStepS argv i l st).ncopy = st.ncopy + 1 := rfl

theorem stringStepS_curas (argv : List (List Nat)) (i : Nat) (l : Locals) (st : KState) :
    (stringStepS argv i l st).curas = st.curas := rfl

theorem stringStepS_trace (argv : List (List Nat)) (i : Nat) (l : Locals) (st : KState) :
    (stringStepS argv i l st).trace = st.trace ++
      [Event.copyout (l.stackptr - argLen (argv.getD i [])) (cstring (argv.getD i []) ++ [0]) 0] :=
  rfl

theorem writeBytes_above (mem : Nat → Nat) (dst : Nat) (bs : List Nat) (a : Nat)
    (h : dst + bs.length ≤ a) : writeBytes mem dst bs a = mem a := by
  unfold writeBytes
  rw [if_neg (by omega)]

theorem writeBytes_at (mem : Nat → Nat) (dst : Nat) (bs : List Nat) (k : Nat)
    (h : k < bs.length) : writeBytes mem dst bs (dst + k) = bs.getD k 0 := by
  unfold writeBytes
  rw [if_pos (by omega), Nat.add_sub_cancel_left]

theorem stringLoop_step (c : Collab) (argv : List (List Nat)) (i : Nat) (l : Locals)
    (st : KState) (h : c.copyout st.ncopy = 0) (hlen : strlen (argv.getD i []) + 4 < WORD)
    (hsp : l.stackptr < WORD) (hfit : argLen (argv.getD i []) ≤ l.stackptr) :
    stringLoop c argv (i + 1) l st =
      stringLoop c argv i (stringStepL argv i l) (stringStepS argv i l st) := by
  have h1 : (strlen (argv.getD i []) + 1) % WORD = strlen (argv.getD i []) + 1 :=
    Nat.mod_eq_of_lt (by omega)
  have h2 : ROUNDUP (strlen (argv.getD i []) + 1) 4 = argLen (argv.getD i []) := by
    unfold argLen
    rw [h1]
  have h3 : argLen (argv.getD i []) * 1 % WORD = argLen (argv.getD i []) := by
    rw [Nat.mul_one]
    exact Nat.mod_eq_of_lt (ROUNDUP_lt _ _)
  rw [stringLoop]
  simp only [copyout, h, h1, h2, h3, sub32_of_le hfit hsp, kread_cstring, ne_eq,
    not_true_eq_false, if_false, if_true, stringStepL, stringStepS]

theorem stringLoop_ok (c : Collab) (argv : List (List Nat)) (hc : ∀ k, c.copyout k = 0)
    (hlen : ∀ b ∈ argv, strlen b + 4 < WORD) :
    ∀ (n : Nat) (l : Locals) (st : KState), n ≤ argv.length → n ≤ l.argPtrs.length →
      l.stackptr < WORD → used argv n ≤ l.stackptr → l.result = 0 →
      (stringLoop c argv n l st).1.result = 0 ∧
      (stringLoop c argv n l st).1.stackptr = l.stackptr - used argv n ∧
      (stringLoop c argv n l st).1.argPtrs.length = l.argPtrs.length ∧
      (∀ i, i < n → (stringLoop c argv n l st).1.argPtrs.getD i 0 =
        l.stackptr - used argv n + used argv i) ∧
      (∀ i, n ≤ i → (stringLoop c argv n l st).1.argPtrs.getD i 0 = l.argPtrs.getD i 0) ∧
      (∀ a, l.stackptr ≤ a → (stringLoop c argv n l st).2.mem a = st.mem a) ∧
      (∀ i, i < n → ∀ k, k ≤ strlen (argv.getD i []) →
        (stringLoop c argv n l st).2.mem (l.stackptr - used argv n + used argv i + k) =
          (cstring (argv.getD i []) ++ [0]).getD k 0) ∧
      (stringLoop c argv n l st).2.curas = st.curas ∧
      (stringLoop c argv n l st).2.ncopy = st.ncopy + n := by
  intro n
  induction n with
  | zero =>
    intro l st _ _ _ _ hres
    simp [stringLoop, hres, used_zero]
  | succ n ih =>
    intro l st hn hp hsp hfit hres
    have hmem : argv.getD n [] ∈ argv := by
      rw [List.getD_eq_getElem?_getD, List.getElem?_eq_getElem (by omega)]
      exact List.getElem_mem _
    have hl := hlen _ hmem
    have hb := argLen_bounds hl
    have hu := used_succ (show n < argv.length by omega)
    have hcl : (cstring (argv.getD n []) ++ [0]).length = strlen (argv.getD n []) + 1 := by
      simp [strlen]
    rw [stringLoop_step c argv n l st (hc _) hl hsp (by omega)]
    have IH := ih (stringStepL argv n l) (stringStepS argv n l st)
        (by omega) (by simpa [stringStepL] using (by omega : n ≤ l.argPtrs.length))
        (by simp only [stringStepL]; omega) (by simp only [stringStepL]; omega) rfl
    simp only [stringStepL_stackptr, stringStepL_argPtrs, stringStepS_mem, stringStepS_ncopy,
      stringStepS_curas] at IH
    obtain ⟨h1, h2, h3, h4, h5, h6, h7, h8, h9⟩ := IH
    have hsp2 : l.stackptr - argLen (argv.getD n []) - used argv n =
        l.stackptr - used argv (n + 1) := by omega
    refine ⟨h1, ?_, ?_, ?_, ?_, ?_, ?_, h8, ?_⟩
    · rw [h2]; omega
    · rw [h3]; simp
    · intro i hi
      rcases Nat.lt_or_ge i n with h | h
      · rw [h4 i h, hsp2]
      · have : i = n := by omega
        subst this
        rw [h5 i (le_refl _)]
        rw [List.getD_eq_getElem?_getD, List.getElem?_set_self (by omega)]
        simp only [Option.getD_some]
        omega
    · intro i hi
      rw [h5 i (by omega)]
      rw [List.getD_eq_getElem?_getD, List.getElem?_set_ne (by omega),
        ← List.getD_eq_getElem?_getD]
    · intro a ha
      rw [h6 a (by omega)]
      exact writeBytes_above _ _ _ _ (by rw [hcl]; omega)
    · intro i hi k hk
      rcases Nat.lt_or_ge i n with h | h
      · have := h7 i h k hk
        rw [hsp2] at this
        exact this
      · have : i = n := by omega
        subst this
        have e : l.stackptr - used argv (i + 1) + used argv i + k =
            l.stackptr - argLen (argv.getD i []) + k := by omega
        rw [e, h6 _ (by omega)]
        exact writeBytes_at _ _ _ _ (by rw [hcl]; omega)
    · rw [h9]; omega

/-! ## The pointer loop when every copy succeeds -/

theorem wordBytes_length (be : Bool) (v : Nat) : (wordBytes be v).length = 4 := by
  cases be <;> simp [wordBytes]

theorem ptrStepL_stackptr (l : Locals) : (ptrStepL l).stackptr = l.stackptr - 4 := rfl

theorem ptrStepL_argPtrs (l : Locals) : (ptrStepL l).argPtrs = l.argPtrs := rfl

theorem ptrStepS_mem (c : Collab) (i : Nat) (l : Locals) (st : KState) :
    (ptrStepS c i l st).mem =
      writeBytes st.mem (l.stackptr - 4) (wordBytes c.bigEndian (l.argPtrs.getD i 0)) := rfl

theorem ptrStepS_ncopy (c : Collab) (i : Nat) (l : Locals) (st : KState) :
    (ptrStepS c i l st).ncopy = st.ncopy + 1 := rfl

theorem ptrStepS_curas (c : Collab) (i : Nat) (l : Locals) (st : KState) :
    (ptrStepS c i l st).curas = st.curas := rfl

theorem ptrStepS_trace (c : Collab) (i : Nat) (l : Locals) (st : KState) :
    (ptrStepS c i l st).trace = st.trace ++
      [Event.copyout (l.stackptr - 4) (wordBytes c.bigEndian (l.argPtrs.getD i 0)) 0] := rfl

theorem pointerLoop_step (c : Collab) (i : Nat) (l : Locals) (st : KState)
    (h : c.copyout st.ncopy = 0) (hsp : l.stackptr < WORD) (hfit : 4 ≤ l.stackptr) :
    pointerLoop c (i + 1) l st = pointerLoop c i (ptrStepL l) (ptrStepS c i l st) := by
  rw [pointerLoop]
  simp only [copyout, h, sub32_of_le hfit hsp, ne_eq, not_true_eq_false, if_false, if_true,
    ptrStepL, ptrStepS]

theorem pointerLoop_ok (c : Collab) (hc : ∀ k, c.copyout k = 0) :
    ∀ (n : Nat) (l : Locals) (st : KState), l.stackptr < WORD → 4 * n ≤ l.stackptr →
      l.result = 0 →
      (pointerLoop c n l st).1.result = 0 ∧
      (pointerLoop c n l st).1.stackptr = l.stackptr - 4 * n ∧
      (pointerLoop c n l st).1.argPtrs = l.argPtrs ∧
      (∀ a, l.stackptr ≤ a → (pointerLoop c n l st).2.mem a = st.mem a) ∧
      (∀ i, i < n → ∀ k, k < 4 →
        (pointerLoop c n l st).2.mem (l.stackptr - 4 * n + 4 * i + k) =
          (wordBytes c.bigEndian (l.argPtrs.getD i 0)).getD k 0) ∧
      (pointerLoop c n l st).2.curas = st.curas ∧
      (pointerLoop c n l st).2.ncopy = st.ncopy + n := by
  intro n
  induction n with
  | zero =>
    intro l st _ _ hres
    simp [pointerLoop, hres]
  | succ n ih =>
    intro l st hsp hfit hres
    rw [pointerLoop_step c n l st (hc _) hsp (by omega)]
    have IH := ih (ptrStepL l) (ptrStepS c n l st) (by simp only [ptrStepL]; omega)
      (by simp only [ptrStepL]; omega) rfl
    simp only [ptrStepL_stackptr, ptrStepL_argPtrs, ptrStepS_mem, ptrStepS_ncopy,
      ptrStepS_curas] at IH
    obtain ⟨h1, h2, h3, h4, h5, h6, h7⟩ := IH
    refine ⟨h1, ?_, h3, ?_, ?_, h6, ?_⟩
    · rw [h2]; omega
    · intro a ha
      rw [h4 a (by omega)]
      exact writeBytes_above _ _ _ _ (by rw [wordBytes_length]; omega)
    · intro i hi k hk
      rcases Nat.lt_or_ge i n with h | h
      · have := h5 i h k hk
        rw [show l.stackptr - 4 * (n + 1) + 4 * i + k = l.stackptr - 4 - 4 * n + 4 * i + k by
          omega]
        exact this
      · have : i = n := by omega
        subst this
        rw [show l.stackptr - 4 * (i + 1) + 4 * i + k = l.stackptr - 4 + k by omega,
          h4 _ (by omega)]
        exact writeBytes_at _ _ _ _ (by rw [wordBytes_length]; exact hk)
    · rw [h7]; omega

/-! ## Both loops when every copy succeeds -/

theorem copyArgs_ok (c : Collab) (argv : List (List Nat)) (l : Locals) (st : KState)
    (hc : ∀ k, c.copyout k = 0) (hlen : ∀ b ∈ argv, strlen b + 4 < WORD)
    (hp : l.argPtrs.length = argv.length + 1) (hsp : l.stackptr < WORD)
    (hfit : used argv argv.length + 4 * (argv.length + 1) ≤ l.stackptr) (hres : l.result = 0) :
    (copyArgs c argv argv.length l st).1.result = 0 ∧
    (copyArgs c argv argv.length l st).1.stackptr =
      l.stackptr - used argv argv.length - 4 * (argv.length + 1) ∧
    (∀ i, i < argv.length → (copyArgs c argv argv.length l st).1.argPtrs.getD i 0 =
      l.stackptr - used argv argv.length + used argv i) ∧
    (copyArgs c argv argv.length l st).1.argPtrs.getD argv.length 0 = 0 ∧
    (∀ a, l.stackptr ≤ a → (copyArgs c argv argv.length l st).2.mem a = st.mem a) ∧
    (∀ i, i < argv.length → ∀ k, k ≤ strlen (argv.getD i []) →
      (copyArgs c argv argv.length l st).2.mem
          (l.stackptr - used argv argv.length + used argv i + k) =
        (cstring (argv.getD i []) ++ [0]).getD k 0) ∧
    (∀ i, i < argv.length + 1 → ∀ k, k < 4 →
      (copyArgs c argv argv.length l st).2.mem
          (l.stackptr - used argv argv.length - 4 * (argv.length + 1) + 4 * i + k) =
        (wordBytes c.bigEndian
          ((copyArgs c argv argv.length l st).1.argPtrs.getD i 0)).getD k 0) ∧
    (copyArgs c argv argv.length l st).2.curas = st.curas ∧
    (copyArgs c argv argv.length l st).2.ncopy = st.ncopy + (2 * argv.length + 1) := by
  obtain ⟨s1, s2, s3, s4, s5, s6, s7, s8, s9⟩ :=
    stringLoop_ok c argv hc hlen argv.length l st (le_refl _) (by omega) hsp (by omega) hres
  have hcopy : copyArgs c argv argv.length l st =
      pointerLoop c (argv.length + 1)
        { (stringLoop c argv argv.length l st).1 with
          argPtrs := (stringLoop c argv argv.length l st).1.argPtrs.set argv.length 0 }
        (stringLoop c argv argv.length l st).2 := by
    simp only [copyArgs, s1, ne_eq, not_true_eq_false, if_false]
  obtain ⟨p1, p2, p3, p4, p5, p6, p7⟩ :=
    pointerLoop_ok c hc (argv.length + 1)
      { (stringLoop c argv argv.length l st).1 with
        argPtrs := (stringLoop c argv argv.length l st).1.argPtrs.set argv.length 0 }
      (stringLoop c argv argv.length l st).2
      (by simp only [s2]; omega) (by simp only [s2]; omega) s1
  rw [← hcopy] at p1 p2 p3 p4 p5 p6 p7
  simp only [s2] at p2 p4 p5
  have hget : ∀ i, i < argv.length →
      (copyArgs c argv argv.length l st).1.argPtrs.getD i 0 =
        l.stackptr - used argv argv.length + used argv i := by
    intro i hi
    rw [p3]
    simp only
    rw [List.getD_eq_getElem?_getD, List.getElem?_set_ne (by omega),
      ← List.getD_eq_getElem?_getD]
    exact s4 i hi
  refine ⟨p1, p2, hget, ?_, ?_, ?_, ?_, ?_, ?_⟩
  · rw [p3]
    simp only
    rw [List.getD_eq_getElem?_getD, List.getElem?_set_self (by omega)]
    rfl
  · intro a ha
    rw [p4 a (by omega)]
    exact s6 a ha
  · intro i hi k hk
    have hu := used_mono (Nat.le_of_lt hi) (le_refl argv.length)
    rw [p4 _ (by omega)]
    exact s7 i hi k hk
  · intro i hi k hk
    rw [p5 i hi k hk, p3]
  · rw [p6, s8]
  · rw [p7, s9]; omega

theorem used_lt {argv : List (List Nat)} (hlen : ∀ b ∈ argv, strlen b + 4 < WORD) {i j : Nat}
    (hij : i < j) (hj : j ≤ argv.length) : used argv i < used argv j := by
  have hmem : argv.getD i [] ∈ argv := by
    rw [List.getD_eq_getElem?_getD, List.getElem?_eq_getElem (by omega)]
    exact List.getElem_mem _
  have hb := argLen_bounds (hlen _ hmem)
  have hs := used_succ (show i < argv.length by omega)
  have hm := used_mono (show i + 1 ≤ j by omega) hj
  omega

/-! ## Layout of the user stack

The statements of this section share their hypotheses: every `copyout` succeeds
(`hc`); each string with its terminator and padding fits in a `size_t`
(`hlen`, true of any string held in a 32-bit address space); the initial stack
pointer is a `vaddr_t` (`hs0`); and the cursor does not wrap below zero
(`hfit`: the bytes reserved for the strings and the `argc + 1` table words are
at most `s0`). -/

theorem preCopyLocals_stackptr (args : List (List Nat)) (s0 : Nat) :
    (preCopyLocals args s0).stackptr = s0 := rfl

/-- C1: when every copyout succeeds and the cursor does not wrap, after the two
copy loops the bytes of user memory at the destination address recorded for
argument `i`, read up to and including the first zero byte, are the string
`args[i]` followed by its terminator. -/
theorem string_round_trip (c : Collab) (args : List (List Nat)) (s0 : Nat) (st : KState)
    (hc : ∀ k, c.copyout k = 0) (hlen : ∀ b ∈ args, strlen b + 4 < WORD) (hs0 : s0 < WORD)
    (hfit : (args.map argLen).sum + 4 * (args.length + 1) ≤ s0)
    (i : Nat) (hi : i < args.length) (fuel : Nat) (hfuel : strlen (args.getD i []) < fuel) :
    readCStr
      (copyArgs c args args.length
        (preCopyLocals args s0) st).2.mem
      fuel
      ((copyArgs c args args.length
        (preCopyLocals args s0)
        st).1.argPtrs.getD i 0)
      = some (cstring (args.getD i []) ++ [0]) := by
  obtain ⟨_, _, h3, _, _, h6, _⟩ :=
    copyArgs_ok c args
      (preCopyLocals args s0) st hc hlen
      (by simp [preCopyLocals]) hs0 (by rw [used_length]; exact hfit) rfl
  rw [h3 i hi]
  exact readCStr_of_bytes _ _ _ _ (cstring_ne_zero _) (fun k hk => h6 i hi k hk) hfuel

/-- C2: when every copy succeeds without wrap-around, after the pointer loop
the word of user memory at `argv base + 4 * i` is the destination address
recorded for argument `i`, for every `i < argc`, and the word at
`argv base + 4 * argc` is 0, where `argv base` is the cursor after the loop. -/
theorem pointer_table_layout (c : Collab) (args : List (List Nat)) (s0 : Nat) (st : KState)
    (hc : ∀ k, c.copyout k = 0) (hlen : ∀ b ∈ args, strlen b + 4 < WORD) (hs0 : s0 < WORD)
    (hfit : (args.map argLen).sum + 4 * (args.length + 1) ≤ s0) :
    (∀ i, i < args.length →
      readWord c.bigEndian
        (copyArgs c args args.length
          (preCopyLocals args s0)
          st).2.mem
        ((copyArgs c args args.length
          (preCopyLocals args s0)
          st).1.stackptr + 4 * i)
        = (copyArgs c args args.length
          (preCopyLocals args s0)
          st).1.argPtrs.getD i 0) ∧
    readWord c.bigEndian
        (copyArgs c args args.length
          (preCopyLocals args s0)
          st).2.mem
        ((copyArgs c args args.length
          (preCopyLocals args s0)
          st).1.stackptr + 4 * args.length) = 0 := by
  obtain ⟨_, h2, h3, h4, _, _, h7, _⟩ :=
    copyArgs_ok c args
      (preCopyLocals args s0) st hc hlen
      (by simp [preCopyLocals]) hs0 (by rw [used_length]; exact hfit) rfl
  simp only [preCopyLocals_stackptr] at h2 h3 h7
  rw [← used_length] at hfit
  constructor
  · intro i hi
    apply readWord_wordBytes
    · rw [h3 i hi]
      have := used_mono (Nat.le_of_lt hi) (le_refl args.length)
      omega
    · intro k hk
      rw [h2]
      exact h7 i (by omega) k hk
  · apply readWord_wordBytes c.bigEndian _ _ 0 (by decide)
    intro k hk
    have := h7 args.length (by omega) k hk
    rw [h4, ← h2] at this
    exact this

/-- C3: when every copy succeeds without wrap-around, the destination addresses
recorded in the destination-address table are strictly ascending by index, and
the entry at index `argc` is null. -/
theorem dest_addresses_ascending (c : Collab) (args : List (List Nat)) (s0 : Nat) (st : KState)
    (hc : ∀ k, c.copyout k = 0) (hlen : ∀ b ∈ args, strlen b + 4 < WORD) (hs0 : s0 < WORD)
    (hfit : (args.map argLen).sum + 4 * (args.length + 1) ≤ s0) :
    (∀ i j, i < j → j < args.length →
      (copyArgs c args args.length
        (preCopyLocals args s0)
        st).1.argPtrs.getD i 0 <
      (copyArgs c args args.length
        (preCopyLocals args s0)
        st).1.argPtrs.getD j 0) ∧
    (copyArgs c args args.length
        (preCopyLocals args s0)
        st).1.argPtrs.getD args.length 0 = 0 := by
  obtain ⟨_, _, h3, h4, _⟩ :=
    copyArgs_ok c args
      (preCopyLocals args s0) st hc hlen
      (by simp [preCopyLocals]) hs0 (by rw [used_length]; exact hfit) rfl
  refine ⟨?_, h4⟩
  intro i j hij hj
  rw [h3 i (by omega), h3 j hj]
  have := used_lt hlen hij (Nat.le_of_lt hj)
  omega

theorem finalStackptr_mod8 (USERSTACK p : Nat) :
    ((USERSTACK : Int) - (finalStackptr USERSTACK p : Int)) % 8 = 0 ∧
    sub32 USERSTACK (finalStackptr USERSTACK p) % 8 = 0 := by
  have h := ROUNDUP_eight_mod (sub32 USERSTACK p)
  have hl := ROUNDUP_lt (sub32 USERSTACK p) 8
  unfold finalStackptr
  simp only
  generalize ROUNDUP (sub32 USERSTACK p) 8 = r at h hl
  unfold sub32
  rw [WORD_eq] at *
  omega

/-- C4: the final stack pointer `USERSTACK - ROUNDUP(USERSTACK - p, 8)` lies a
multiple of 8 below the top of the user region, for every pre-alignment cursor
`p` (so for every argument count and all argument lengths), both as an integer
difference and as a difference of machine words. -/
theorem final_stackptr_aligned (USERSTACK p : Nat) :
    ((USERSTACK : Int) - (finalStackptr USERSTACK p : Int)) % 8 = 0 ∧
    sub32 USERSTACK (finalStackptr USERSTACK p) % 8 = 0 :=
  finalStackptr_mod8 USERSTACK p

/-! ## The copy loops under an arbitrary oracle -/

theorem CopyRun.zero (c : Collab) (l : Locals) (st : KState) (h : l.result = 0) :
    CopyRun c 0 st (l, st) where
  curas := rfl
  trace := ⟨[], by simp⟩
  le := le_refl _
  ok := fun _ => ⟨rfl, fun k h1 h2 => by simp only at h2; omega⟩
  fail := fun h1 => absurd h h1

theorem CopyRun.failed (c : Collab) (n : Nat) (st st1 : KState) (l1 : Locals) (e : Event)
    (htr : st1.trace = st.trace ++ [e]) (he : isCopyout e = true)
    (hres : l1.result = c.copyout st.ncopy)
    (hcur : st1.curas = st.curas) (hn : st1.ncopy = st.ncopy + 1)
    (hf : c.copyout st.ncopy ≠ 0) :
    CopyRun c (n + 1) st (l1, st1) where
  curas := hcur
  trace := ⟨[e], htr, by simpa using he, by simp [hn]⟩
  le := by simp only [hn]; omega
  ok := fun h => absurd (hres ▸ h) hf
  fail := fun _ => ⟨by simp only [hn]; omega, by simp only [hn, hres]; rfl,
    fun k h1 h2 => by simp only [hn] at h2; omega⟩

theorem CopyRun.step (c : Collab) (n : Nat) (st st1 : KState) (r : Locals × KState) (e : Event)
    (h : CopyRun c n st1 r) (htr : st1.trace = st.trace ++ [e])
    (he : isCopyout e = true) (hcur : st1.curas = st.curas) (hn : st1.ncopy = st.ncopy + 1)
    (h0 : c.copyout st.ncopy = 0) : CopyRun c (n + 1) st r where
  curas := by rw [h.curas, hcur]
  trace := by
    obtain ⟨es, h1, h2, h3⟩ := h.trace
    refine ⟨e :: es, by rw [h1, htr]; simp, ?_, by simp; omega⟩
    intro x hx
    rcases List.mem_cons.mp hx with hx | hx
    · rw [hx]; exact he
    · exact h2 x hx
  le := by have := h.le; omega
  ok := fun hr => by
    obtain ⟨h1, h2⟩ := h.ok hr
    refine ⟨by omega, fun k hk1 hk2 => ?_⟩
    rcases Nat.eq_or_lt_of_le hk1 with hk | hk
    · rw [← hk]; exact h0
    · exact h2 k (by omega) hk2
  fail := fun hr => by
    obtain ⟨h1, h2, h3⟩ := h.fail hr
    refine ⟨by omega, h2, fun k hk1 hk2 => ?_⟩
    rcases Nat.eq_or_lt_of_le hk1 with hk | hk
    · rw [← hk]; exact h0
    · exact h3 k (by omega) hk2

theorem CopyRun.append (c : Collab) (n m : Nat) (st : KState) (r1 r2 : Locals × KState)
    (h1 : CopyRun c n st r1) (hr : r1.1.result = 0) (h2 : CopyRun c m r1.2 r2) :
    CopyRun c (n + m) st r2 where
  curas := by rw [h2.curas, h1.curas]
  trace := by
    obtain ⟨es1, a1, a2, a3⟩ := h1.trace
    obtain ⟨es2, b1, b2, b3⟩ := h2.trace
    refine ⟨es1 ++ es2, by rw [b1, a1]; simp, ?_, by simp; omega⟩
    intro x hx
    rcases List.mem_append.mp hx with hx | hx
    · exact a2 x hx
    · exact b2 x hx
  le := by have := h1.le; have := h2.le; have := (h1.ok hr).1; omega
  ok := fun h => by
    obtain ⟨a1, a2⟩ := h1.ok hr
    obtain ⟨b1, b2⟩ := h2.ok h
    refine ⟨by omega, fun k hk1 hk2 => ?_⟩
    rcases Nat.lt_or_ge k r1.2.ncopy with hk | hk
    · exact a2 k hk1 hk
    · exact b2 k hk hk2
  fail := fun h => by
    obtain ⟨a1, a2⟩ := h1.ok hr
    obtain ⟨b1, b2, b3⟩ := h2.fail h
    have := h1.le
    refine ⟨by omega, b2, fun k hk1 hk2 => ?_⟩
    rcases Nat.lt_or_ge k r1.2.ncopy with hk | hk
    · exact a2 k hk1 hk
    · exact b3 k hk hk2

theorem stringLoop_run (c : Collab) (argv : List (List Nat)) :
    ∀ (n : Nat) (l : Locals) (st : KState), l.result = 0 →
      CopyRun c n st (stringLoop c argv n l st) := by
  intro n
  induction n with
  | zero =>
    intro l st h
    exact CopyRun.zero c l st h
  | succ n ih =>
    intro l st _
    rw [stringLoop]
    simp only [copyout]
    by_cases h0 : c.copyout st.ncopy = 0
    · simp only [h0, ne_eq, not_true_eq_false, if_false, if_true]
      exact CopyRun.step c n st _ _ _ (ih _ _ rfl) rfl rfl rfl rfl h0
    · simp only [h0, ne_eq, not_false_eq_true, if_true, if_false]
      exact CopyRun.failed c n st _ _ _ rfl rfl rfl rfl rfl h0

theorem pointerLoop_run (c : Collab) :
    ∀ (n : Nat) (l : Locals) (st : KState), l.result = 0 →
      CopyRun c n st (pointerLoop c n l st) := by
  intro n
  induction n with
  | zero =>
    intro l st h
    exact CopyRun.zero c l st h
  | succ n ih =>
    intro l st _
    rw [pointerLoop]
    simp only [copyout]
    by_cases h0 : c.copyout st.ncopy = 0
    · simp only [h0, ne_eq, not_true_eq_false, if_false, if_true]
      exact CopyRun.step c n st _ _ _ (ih _ _ rfl) rfl rfl rfl rfl h0
    · simp only [h0, ne_eq, not_false_eq_true, if_true, if_false]
      exact CopyRun.failed c n st _ _ _ rfl rfl rfl rfl rfl h0

theorem copyArgs_run (c : Collab) (argv : List (List Nat)) (argc : Nat) (l : Locals)
    (st : KState) (h : l.result = 0) :
    CopyRun c (argc + (argc + 1)) st (copyArgs c argv argc l st) := by
  have h1 := stringLoop_run c argv argc l st h
  unfold copyArgs
  simp only
  by_cases hr : (stringLoop c argv argc l st).1.result = 0
  · simp only [hr, ne_eq, not_true_eq_false, if_false]
    exact CopyRun.append c argc (argc + 1) st _ _ h1 hr (pointerLoop_run c _ _ _ rfl)
  · simp only [hr, ne_eq, not_false_eq_true, if_true]
    exact
      { curas := h1.curas
        trace := h1.trace
        le := by have := h1.le; omega
        ok := fun h => absurd h hr
        fail := h1.fail }

/-! ## The whole function -/

theorem runprogram_reach (c : Collab) (args : List (List Nat)) (mem : Nat → Nat) (asp : Nat)
    (hargc : (args.length + 1) * 4 < WORD) (hk1 : c.kmalloc_argv = true)
    (ho : c.vfs_open.1 = 0) (ha : c.as_create = some asp) (hl : c.load_elf.1 = 0)
    (hs : c.as_define_stack.1 = 0) (hk2 : c.kmalloc_argPtrs = true) :
    runprogram c args none mem =
      if (copyArgs c args args.length (preCopyLocals args c.as_define_stack.2)
          (preCopyState args mem asp c.vfs_open.2)).1.result ≠ 0 then
        (Outcome.returned (copyArgs c args args.length (preCopyLocals args c.as_define_stack.2)
          (preCopyState args mem asp c.vfs_open.2)).1.result,
         unwind args.length true (copyArgs c args args.length
          (preCopyLocals args c.as_define_stack.2) (preCopyState args mem asp c.vfs_open.2)).2)
      else
        (Outcome.entered args.length
          (copyArgs c args args.length (preCopyLocals args c.as_define_stack.2)
            (preCopyState args mem asp c.vfs_open.2)).1.stackptr
          (finalStackptr c.USERSTACK
            (copyArgs c args args.length (preCopyLocals args c.as_define_stack.2)
              (preCopyState args mem asp c.vfs_open.2)).1.stackptr)
          c.load_elf.2,
         ((copyArgs c args args.length (preCopyLocals args c.as_define_stack.2)
            (preCopyState args mem asp c.vfs_open.2)).2.log [Event.kfree KPtr.argPtrs]).log
          [Event.enter_new_process args.length
            (copyArgs c args args.length (preCopyLocals args c.as_define_stack.2)
              (preCopyState args mem asp c.vfs_open.2)).1.stackptr
            (finalStackptr c.USERSTACK
              (copyArgs c args args.length (preCopyLocals args c.as_define_stack.2)
                (preCopyState args mem asp c.vfs_open.2)).1.stackptr)
            c.load_elf.2]) := by
  unfold runprogram
  simp only [Nat.not_le.mpr hargc, hk1, ho, ha, hl, hs, hk2, KState.log, preCopyState,
    preCopyLocals, if_false, ne_eq, not_true_eq_false, List.nil_append, List.cons_append,
    List.append_assoc, Bool.true_eq_false]

theorem enters_of_copyouts (es : List Event) (h : ∀ e ∈ es, isCopyout e = true) :
    enters es = [] := by
  unfold enters
  rw [List.filter_eq_nil_iff]
  intro e he
  have := h e he
  cases e <;> simp_all [isCopyout, isEnter]

theorem copyouts_of_copyouts (es : List Event) (h : ∀ e ∈ es, isCopyout e = true) :
    copyouts es = es := by
  unfold copyouts
  rw [List.filter_eq_self]
  exact h

theorem map_argLen_eq (args : List (List Nat)) (hlen : ∀ b ∈ args, strlen b + 4 < WORD) :
    args.map argLen = args.map (fun b => ROUNDUP (strlen b + 1) 4) := by
  apply List.map_congr_left
  intro b hb
  have := hlen b hb
  unfold argLen
  rw [Nat.mod_eq_of_lt (by omega)]

/-- C5: when both allocations, open, address-space creation, load, stack
definition and all copies succeed (without wrap-around), `enter_new_process` is
called exactly once, with `argc = nargs`, the argv address equal to the cursor
after the pointer loop, which is
`s0 - sum of ROUNDUP(strlen(args[i]) + 1, 4) - 4 * (argc + 1)`, the stack
pointer `USERSTACK - ROUNDUP(USERSTACK - argv address, 8)` and the entry address
returned by the loader. -/
theorem enter_new_process_values (c : Collab) (args : List (List Nat)) (mem : Nat → Nat)
    (asp : Nat) (hk1 : c.kmalloc_argv = true) (ho : c.vfs_open.1 = 0)
    (ha : c.as_create = some asp) (hl : c.load_elf.1 = 0) (hs : c.as_define_stack.1 = 0)
    (hk2 : c.kmalloc_argPtrs = true) (hc : ∀ k, c.copyout k = 0)
    (hlen : ∀ b ∈ args, strlen b + 4 < WORD) (hs0 : c.as_define_stack.2 < WORD)
    (hfit : (args.map argLen).sum + 4 * (args.length + 1) ≤ c.as_define_stack.2) :
    (runprogram c args none mem).1 =
      Outcome.entered args.length
        (c.as_define_stack.2 - (args.map (fun b => ROUNDUP (strlen b + 1) 4)).sum
          - 4 * (args.length + 1))
        (sub32 c.USERSTACK (ROUNDUP (sub32 c.USERSTACK
          (c.as_define_stack.2 - (args.map (fun b => ROUNDUP (strlen b + 1) 4)).sum
            - 4 * (args.length + 1))) 8))
        c.load_elf.2 ∧
    enters (runprogram c args none mem).2.trace =
      [Event.enter_new_process args.length
        (c.as_define_stack.2 - (args.map (fun b => ROUNDUP (strlen b + 1) 4)).sum
          - 4 * (args.length + 1))
        (sub32 c.USERSTACK (ROUNDUP (sub32 c.USERSTACK
          (c.as_define_stack.2 - (args.map (fun b => ROUNDUP (strlen b + 1) 4)).sum
            - 4 * (args.length + 1))) 8))
        c.load_elf.2] ∧
    (copyArgs c args args.length (preCopyLocals args c.as_define_stack.2)
        (preCopyState args mem asp c.vfs_open.2)).1.stackptr =
      c.as_define_stack.2 - (args.map (fun b => ROUNDUP (strlen b + 1) 4)).sum
        - 4 * (args.length + 1) := by
  have hargc : (args.length + 1) * 4 < WORD := by omega
  obtain ⟨h1, h2, _⟩ :=
    copyArgs_ok c args (preCopyLocals args c.as_define_stack.2)
      (preCopyState args mem asp c.vfs_open.2) hc hlen (by simp [preCopyLocals]) hs0
      (by rw [used_length]; exact hfit) rfl
  rw [used_length, preCopyLocals_stackptr, map_argLen_eq args hlen] at h2
  obtain ⟨es, t1, t2, _⟩ := (copyArgs_run c args args.length
    (preCopyLocals args c.as_define_stack.2) (preCopyState args mem asp c.vfs_open.2) rfl).trace
  rw [runprogram_reach c args mem asp hargc hk1 ho ha hl hs hk2]
  simp only [h1, ne_eq, not_true_eq_false, if_false, h2, KState.log, t1]
  refine ⟨rfl, ?_, trivial⟩
  simp only [enters, List.filter_append]
  have := enters_of_copyouts es t2
  unfold enters at this
  rw [this]
  rfl

theorem copyArgs_progArgs (c : Collab) (s0 : Nat) (st : KState) (hc : ∀ k, c.copyout k = 0)
    (hs0 : s0 < WORD) (hfit : 32 ≤ s0) :
    (copyArgs c progArgs 3 (preCopyLocals progArgs s0) st).1.stackptr = s0 - 32 ∧
    (copyArgs c progArgs 3 (preCopyLocals progArgs s0) st).1.result = 0 ∧
    (copyArgs c progArgs 3 (preCopyLocals progArgs s0) st).2.trace = st.trace ++
      [Event.copyout (s0 - 4) [98, 98, 0] 0,
       Event.copyout (s0 - 8) [97, 0] 0,
       Event.copyout (s0 - 16) [112, 114, 111, 103, 0] 0,
       Event.copyout (s0 - 20) (wordBytes c.bigEndian 0) 0,
       Event.copyout (s0 - 24) (wordBytes c.bigEndian (s0 - 4)) 0,
       Event.copyout (s0 - 28) (wordBytes c.bigEndian (s0 - 8)) 0,
       Event.copyout (s0 - 32) (wordBytes c.bigEndian (s0 - 16)) 0] := by
  have e1 : argLen (progArgs.getD 2 []) = 4 := by decide
  have e2 : argLen (progArgs.getD 1 []) = 4 := by decide
  have e3 : argLen (progArgs.getD 0 []) = 8 := by decide
  have l1 : strlen (progArgs.getD 2 []) + 4 < WORD := by decide
  have l2 : strlen (progArgs.getD 1 []) + 4 < WORD := by decide
  have l3 : strlen (progArgs.getD 0 []) + 4 < WORD := by decide
  have c1 : cstring (progArgs.getD 2 []) ++ [0] = [98, 98, 0] := by decide
  have c2 : cstring (progArgs.getD 1 []) ++ [0] = [97, 0] := by decide
  have c3 : cstring (progArgs.getD 0 []) ++ [0] = [112, 114, 111, 103, 0] := by decide
  have hs : stringLoop c progArgs 3 (preCopyLocals progArgs s0) st =
      ({ result := 0, stackptr := s0 - 16, argPtrs := [s0 - 16, s0 - 8, s0 - 4, 0] },
       { curas := st.curas
         mem := writeBytes (writeBytes (writeBytes st.mem (s0 - 4) [98, 98, 0]) (s0 - 8) [97, 0])
           (s0 - 16) [112, 114, 111, 103, 0]
         ncopy := st.ncopy + 1 + 1 + 1
         trace := st.trace ++ [Event.copyout (s0 - 4) [98, 98, 0] 0] ++
           [Event.copyout (s0 - 8) [97, 0] 0] ++
           [Event.copyout (s0 - 16) [112, 114, 111, 103, 0] 0] }) := by
    rw [stringLoop_step c progArgs 2 _ _ (hc _) l1 hs0 (by rw [e1]; exact le_trans (by decide) hfit)]
    rw [stringLoop_step c progArgs 1 _ _ (hc _) l2
      (by simp only [stringStepL, preCopyLocals]; omega)
      (by simp only [stringStepL, preCopyLocals, e1, e2]; omega)]
    rw [stringLoop_step c progArgs 0 _ _ (hc _) l3
      (by simp only [stringStepL, preCopyLocals]; omega)
      (by simp only [stringStepL, preCopyLocals, e1, e2, e3]; omega)]
    simp only [stringLoop, stringStepL, stringStepS, preCopyLocals, e1, e2, e3, c1, c2, c3]
    refine Prod.ext ?_ rfl
    simp only [progArgs, List.length_cons, List.length_nil, List.replicate, List.set]
    have a1 : s0 - 4 - 4 = s0 - 8 := by omega
    have a2 : s0 - 4 - 4 - 8 = s0 - 16 := by omega
    rw [a2, a1]
  have hp : copyArgs c progArgs 3 (preCopyLocals progArgs s0) st =
      pointerLoop c 4 { result := 0, stackptr := s0 - 16, argPtrs := [s0 - 16, s0 - 8, s0 - 4, 0] }
        (stringLoop c progArgs 3 (preCopyLocals progArgs s0) st).2 := by
    unfold copyArgs
    simp only [hs, ne_eq, not_true_eq_false, if_false, List.set]
  rw [hp, hs]
  rw [pointerLoop_step c 3 _ _ (hc _) (by simp only; omega) (by simp only; omega)]
  rw [pointerLoop_step c 2 _ _ (hc _) (by simp only [ptrStepL]; omega)
    (by simp only [ptrStepL]; omega)]
  rw [pointerLoop_step c 1 _ _ (hc _) (by simp only [ptrStepL]; omega)
    (by simp only [ptrStepL]; omega)]
  rw [pointerLoop_step c 0 _ _ (hc _) (by simp only [ptrStepL]; omega)
    (by simp only [ptrStepL]; omega)]
  simp only [pointerLoop, ptrStepL, ptrStepS, List.getD_cons_succ, List.getD_cons_zero,
    List.append_assoc, List.cons_append, List.nil_append]
  refine ⟨by omega, trivial, ?_⟩
  have a1 : s0 - 16 - 4 = s0 - 20 := by omega
  have a2 : s0 - 16 - 4 - 4 = s0 - 24 := by omega
  have a3 : s0 - 16 - 4 - 4 - 4 = s0 - 28 := by omega
  have a4 : s0 - 16 - 4 - 4 - 4 - 4 = s0 - 32 := by omega
  rw [a4, a3, a2, a1]

theorem copyouts_preCopyState (args : List (List Nat)) (mem : Nat → Nat) (asp v : Nat) :
    copyouts (preCopyState args mem asp v).trace = [] := rfl

/-- C6: for `args = ["prog", "a", "bb"]` and all collaborators succeeding, the
three strings are copied with lengths 5, 2 and 3 (terminator included) into
slots of 8, 4 and 4 bytes, the 4-word pointer table (three addresses and a null
word) is written next to them on the stack, ending where the lowest string
starts, the argv base address is the stack pointer after the pointer table is
written, and the final stack pointer is 8-byte aligned relative to the top of
the user region. -/
theorem scenario_prog_a_bb (c : Collab) (mem : Nat → Nat) (asp : Nat)
    (hk1 : c.kmalloc_argv = true) (ho : c.vfs_open.1 = 0) (ha : c.as_create = some asp)
    (hl : c.load_elf.1 = 0) (hs : c.as_define_stack.1 = 0) (hk2 : c.kmalloc_argPtrs = true)
    (hc : ∀ k, c.copyout k = 0) (hs0 : c.as_define_stack.2 < WORD)
    (hfit : 32 ≤ c.as_define_stack.2) :
    (strlen [112, 114, 111, 103] + 1 = 5 ∧ argLen [112, 114, 111, 103] = 8) ∧
    (strlen [97] + 1 = 2 ∧ argLen [97] = 4) ∧
    (strlen [98, 98] + 1 = 3 ∧ argLen [98, 98] = 4) ∧
    copyouts (runprogram c progArgs none mem).2.trace =
      [Event.copyout (c.as_define_stack.2 - 4) [98, 98, 0] 0,
       Event.copyout (c.as_define_stack.2 - 8) [97, 0] 0,
       Event.copyout (c.as_define_stack.2 - 16) [112, 114, 111, 103, 0] 0,
       Event.copyout (c.as_define_stack.2 - 20) (wordBytes c.bigEndian 0) 0,
       Event.copyout (c.as_define_stack.2 - 24)
         (wordBytes c.bigEndian (c.as_define_stack.2 - 4)) 0,
       Event.copyout (c.as_define_stack.2 - 28)
         (wordBytes c.bigEndian (c.as_define_stack.2 - 8)) 0,
       Event.copyout (c.as_define_stack.2 - 32)
         (wordBytes c.bigEndian (c.as_define_stack.2 - 16)) 0] ∧
    c.as_define_stack.2 - 32 + 4 * 4 = c.as_define_stack.2 - 16 ∧
    (copyArgs c progArgs 3 (preCopyLocals progArgs c.as_define_stack.2)
      (preCopyState progArgs mem asp c.vfs_open.2)).1.stackptr = c.as_define_stack.2 - 32 ∧
    (runprogram c progArgs none mem).1 =
      Outcome.entered 3 (c.as_define_stack.2 - 32)
        (finalStackptr c.USERSTACK (c.as_define_stack.2 - 32)) c.load_elf.2 ∧
    sub32 c.USERSTACK (finalStackptr c.USERSTACK (c.as_define_stack.2 - 32)) % 8 = 0 := by
  obtain ⟨h1, h2, h3⟩ := copyArgs_progArgs c c.as_define_stack.2
    (preCopyState progArgs mem asp c.vfs_open.2) hc hs0 hfit
  have hlen3 : progArgs.length = 3 := rfl
  have hrun := runprogram_reach c progArgs mem asp (by decide) hk1 ho ha hl hs hk2
  rw [hlen3] at hrun
  simp only [h1, h2, ne_eq, not_true_eq_false, if_false] at hrun
  refine ⟨by decide, by decide, by decide, ?_, by omega, h1, ?_,
    (finalStackptr_mod8 _ _).2⟩
  · rw [hrun]
    simp only [KState.log, h3, copyouts, List.filter_append]
    rfl
  · rw [hrun]

theorem copyArgs_nil (c : Collab) (s0 : Nat) (st : KState) (hc : ∀ k, c.copyout k = 0)
    (hs0 : s0 < WORD) (hfit : 4 ≤ s0) :
    copyArgs c [] 0 (preCopyLocals [] s0) st =
      ({ result := 0, stackptr := s0 - 4, argPtrs := [0] },
       { curas := st.curas
         mem := writeBytes st.mem (s0 - 4) [0, 0, 0, 0]
         ncopy := st.ncopy + 1
         trace := st.trace ++ [Event.copyout (s0 - 4) [0, 0, 0, 0] 0] }) := by
  have hw : wordBytes c.bigEndian 0 = [0, 0, 0, 0] := by
    cases c.bigEndian <;> rfl
  unfold copyArgs
  simp only [stringLoop, preCopyLocals, ne_eq, not_true_eq_false, if_false, List.length_nil,
    List.replicate, List.set]
  rw [pointerLoop_step c 0 _ _ (hc _) hs0 hfit]
  simp only [pointerLoop, ptrStepL, ptrStepS, List.getD_cons_zero, hw]

/-- C7: for `argc = 0` and all collaborators succeeding, no string is copied,
exactly one `copyout` is performed, which writes a single null word at
`s0 - 4`, and the argv base address passed to `enter_new_process` is `s0 - 4`,
the cursor right after that word is written. -/
theorem empty_argument_list (c : Collab) (mem : Nat → Nat) (asp : Nat)
    (hk1 : c.kmalloc_argv = true) (ho : c.vfs_open.1 = 0) (ha : c.as_create = some asp)
    (hl : c.load_elf.1 = 0) (hs : c.as_define_stack.1 = 0) (hk2 : c.kmalloc_argPtrs = true)
    (hc : ∀ k, c.copyout k = 0) (hs0 : c.as_define_stack.2 < WORD)
    (hfit : 4 ≤ c.as_define_stack.2) :
    copyouts (runprogram c [] none mem).2.trace =
      [Event.copyout (c.as_define_stack.2 - 4) [0, 0, 0, 0] 0] ∧
    readWord c.bigEndian (runprogram c [] none mem).2.mem (c.as_define_stack.2 - 4) = 0 ∧
    (copyArgs c [] 0 (preCopyLocals [] c.as_define_stack.2)
      (preCopyState [] mem asp c.vfs_open.2)).1.stackptr = c.as_define_stack.2 - 4 ∧
    (runprogram c [] none mem).1 =
      Outcome.entered 0 (c.as_define_stack.2 - 4)
        (finalStackptr c.USERSTACK (c.as_define_stack.2 - 4)) c.load_elf.2 := by
  have h := copyArgs_nil c c.as_define_stack.2 (preCopyState [] mem asp c.vfs_open.2) hc hs0 hfit
  have hrun := runprogram_reach c [] mem asp (by decide) hk1 ho ha hl hs hk2
  simp only [List.length_nil, h, ne_eq, not_true_eq_false, if_false] at hrun
  rw [hrun]
  refine ⟨rfl, ?_, by rw [h], rfl⟩
  simp only [KState.log]
  cases c.bigEndian <;> simp [readWord, writeBytes]

/-! ## Failure paths -/

theorem unwind_eq (argc : Nat) (b : Bool) (st : KState) :
    unwind argc b st =
      { st with curas := none, trace := st.trace ++ unwindEvents argc b st.curas } := by
  simp only [unwind, unwindEvents, List.append_assoc]

theorem runprogram_load_fail (c : Collab) (args : List (List Nat)) (mem : Nat → Nat)
    (asp : Nat) (hargc : (args.length + 1) * 4 < WORD) (hk1 : c.kmalloc_argv = true)
    (ho : c.vfs_open.1 = 0) (ha : c.as_create = some asp) (hl : c.load_elf.1 ≠ 0) :
    runprogram c args none mem =
      (Outcome.returned c.load_elf.1,
       { curas := some asp, mem := mem, ncopy := 0,
         trace := [Event.kmalloc ((args.length + 1) * 4), Event.vfs_open, Event.as_create,
           Event.curproc_setas (some asp), Event.as_activate, Event.load_elf c.vfs_open.2,
           Event.vfs_close c.vfs_open.2] }) := by
  unfold runprogram
  simp only [Nat.not_le.mpr hargc, hk1, ho, ha, hl, KState.log, if_false, if_true, ne_eq,
    not_true_eq_false, not_false_eq_true, List.nil_append, List.cons_append,
    Bool.true_eq_false]

theorem runprogram_stack_fail (c : Collab) (args : List (List Nat)) (mem : Nat → Nat)
    (asp : Nat) (hargc : (args.length + 1) * 4 < WORD) (hk1 : c.kmalloc_argv = true)
    (ho : c.vfs_open.1 = 0) (ha : c.as_create = some asp) (hl : c.load_elf.1 = 0)
    (hs : c.as_define_stack.1 ≠ 0) :
    runprogram c args none mem =
      (Outcome.returned c.as_define_stack.1,
       { curas := some asp, mem := mem, ncopy := 0,
         trace := [Event.kmalloc ((args.length + 1) * 4), Event.vfs_open, Event.as_create,
           Event.curproc_setas (some asp), Event.as_activate, Event.load_elf c.vfs_open.2,
           Event.vfs_close c.vfs_open.2, Event.as_define_stack asp] }) := by
  unfold runprogram
  simp only [Nat.not_le.mpr hargc, hk1, ho, ha, hl, hs, KState.log, if_false, if_true, ne_eq,
    not_true_eq_false, not_false_eq_true, List.nil_append, List.cons_append,
    Bool.true_eq_false]

theorem runprogram_argPtrs_fail (c : Collab) (args : List (List Nat)) (mem : Nat → Nat)
    (asp : Nat) (hargc : (args.length + 1) * 4 < WORD) (hk1 : c.kmalloc_argv = true)
    (ho : c.vfs_open.1 = 0) (ha : c.as_create = some asp) (hl : c.load_elf.1 = 0)
    (hs : c.as_define_stack.1 = 0) (hk2 : c.kmalloc_argPtrs = false) :
    runprogram c args none mem =
      (Outcome.returned c.ENOMEM,
       { curas := none, mem := mem, ncopy := 0,
         trace := (preCopyState args mem asp c.vfs_open.2).trace ++
           unwindEvents args.length false (some asp) }) := by
  unfold runprogram
  simp only [Nat.not_le.mpr hargc, hk1, ho, ha, hl, hs, hk2, KState.log, if_false, if_true,
    ne_eq, not_true_eq_false, List.nil_append, List.cons_append, unwind_eq, preCopyState,
    Bool.true_eq_false]

theorem runprogram_copy_fail (c : Collab) (args : List (List Nat)) (mem : Nat → Nat)
    (asp : Nat) (hargc : (args.length + 1) * 4 < WORD) (hk1 : c.kmalloc_argv = true)
    (ho : c.vfs_open.1 = 0) (ha : c.as_create = some asp) (hl : c.load_elf.1 = 0)
    (hs : c.as_define_stack.1 = 0) (hk2 : c.kmalloc_argPtrs = true)
    (hr : (copyArgs c args args.length (preCopyLocals args c.as_define_stack.2)
      (preCopyState args mem asp c.vfs_open.2)).1.result ≠ 0) :
    (runprogram c args none mem).1 =
      Outcome.returned (copyArgs c args args.length (preCopyLocals args c.as_define_stack.2)
        (preCopyState args mem asp c.vfs_open.2)).1.result ∧
    (runprogram c args none mem).2.curas = none ∧
    ∃ es, (∀ x ∈ es, isCopyout x = true) ∧
      es.length = (copyArgs c args args.length (preCopyLocals args c.as_define_stack.2)
        (preCopyState args mem asp c.vfs_open.2)).2.ncopy ∧
      (runprogram c args none mem).2.trace =
        (preCopyState args mem asp c.vfs_open.2).trace ++ es ++
          unwindEvents args.length true (some asp) := by
  have R := copyArgs_run c args args.length (preCopyLocals args c.as_define_stack.2)
    (preCopyState args mem asp c.vfs_open.2) rfl
  obtain ⟨es, t1, t2, t3⟩ := R.trace
  have hcur := R.curas
  rw [runprogram_reach c args mem asp hargc hk1 ho ha hl hs hk2, if_pos hr]
  refine ⟨rfl, by simp only [unwind_eq], es, t2, ?_, ?_⟩
  · rw [← t3]
    simp [preCopyState]
  · simp only [unwind_eq, t1, hcur]
    rfl

theorem copyArgs_first_failure (c : Collab) (args : List (List Nat)) (l : Locals)
    (st : KState) (hres : l.result = 0) (hn : st.ncopy = 0) (k e : Nat)
    (hk : k < 2 * args.length + 1) (hfail : c.copyout k = e) (he : e ≠ 0)
    (hbefore : ∀ j, j < k → c.copyout j = 0) :
    (copyArgs c args args.length l st).1.result = e ∧
    (copyArgs c args args.length l st).2.ncopy = k + 1 := by
  have R := copyArgs_run c args args.length l st hres
  by_cases hr : (copyArgs c args args.length l st).1.result = 0
  · obtain ⟨h1, h2⟩ := R.ok hr
    have := h2 k (by omega) (by omega)
    omega
  · obtain ⟨h1, h2, h3⟩ := R.fail hr
    have hlt : ¬ (k + 1 < (copyArgs c args args.length l st).2.ncopy) := by
      intro h
      have := h3 k (by omega) h
      omega
    have hge : ¬ ((copyArgs c args args.length l st).2.ncopy - 1 < k) := by
      intro h
      have := hbefore _ h
      omega
    have hkk : (copyArgs c args args.length l st).2.ncopy - 1 = k := by omega
    rw [hkk] at h2
    exact ⟨by omega, by omega⟩

/-- C8: when the `copyout` call of index `k` (a string or a pointer-table word)
is the first to fail, with code `e`, `runprogram` makes no further `copyout`
(exactly `k + 1` calls appear in the trace), never calls `enter_new_process`,
calls `as_deactivate`, `curproc_setas(NULL)` and `as_destroy`, and returns `e`;
the process is left with no current address space. -/
theorem rollback_on_copyout_failure (c : Collab) (args : List (List Nat)) (mem : Nat → Nat)
    (asp k e : Nat) (hargc : (args.length + 1) * 4 < WORD) (hk1 : c.kmalloc_argv = true)
    (ho : c.vfs_open.1 = 0) (ha : c.as_create = some asp) (hl : c.load_elf.1 = 0)
    (hs : c.as_define_stack.1 = 0) (hk2 : c.kmalloc_argPtrs = true)
    (hk : k < 2 * args.length + 1) (hfail : c.copyout k = e) (he : e ≠ 0)
    (hbefore : ∀ j, j < k → c.copyout j = 0) :
    (runprogram c args none mem).1 = Outcome.returned e ∧
    (runprogram c args none mem).2.curas = none ∧
    (copyouts (runprogram c args none mem).2.trace).length = k + 1 ∧
    enters (runprogram c args none mem).2.trace = [] ∧
    ∃ es, (∀ x ∈ es, isCopyout x = true) ∧ es.length = k + 1 ∧
      (runprogram c args none mem).2.trace =
        (preCopyState args mem asp c.vfs_open.2).trace ++ es ++
          ([Event.kfree KPtr.argPtrs]
            ++ (List.range args.length).map (fun i => Event.kfree (KPtr.arg i))
            ++ [Event.kfree KPtr.argv, Event.as_deactivate, Event.curproc_setas none,
                Event.as_destroy (some asp)]) := by
  obtain ⟨f1, f2⟩ := copyArgs_first_failure c args (preCopyLocals args c.as_define_stack.2)
    (preCopyState args mem asp c.vfs_open.2) rfl rfl k e hk hfail he hbefore
  obtain ⟨r1, r2, es, r3, r4, r5⟩ := runprogram_copy_fail c args mem asp hargc hk1 ho ha hl hs
    hk2 (by rw [f1]; exact he)
  rw [f1] at r1
  rw [f2] at r4
  refine ⟨r1, r2, ?_, ?_, es, r3, r4, r5⟩
  · rw [r5]
    simp only [copyouts, List.filter_append]
    have h1 := copyouts_of_copyouts es r3
    unfold copyouts at h1
    rw [h1]
    have h2 : List.filter isCopyout (unwindEvents args.length true (some asp)) = [] := by
      rw [List.filter_eq_nil_iff]
      intro x hx
      simp only [unwindEvents, if_true, List.mem_append, List.mem_map, List.mem_cons,
        List.mem_singleton, List.mem_nil_iff, or_false] at hx
      rcases hx with (hx | ⟨i, _, hx⟩) | hx | hx | hx | hx <;> subst hx <;> simp [isCopyout]
    rw [h2]
    simp [preCopyState, isCopyout, r4]
  · rw [r5]
    simp only [enters, List.filter_append]
    have h1 := enters_of_copyouts es r3
    unfold enters at h1
    rw [h1]
    have h2 : List.filter isEnter (unwindEvents args.length true (some asp)) = [] := by
      rw [List.filter_eq_nil_iff]
      intro x hx
      simp only [unwindEvents, if_true, List.mem_append, List.mem_map, List.mem_cons,
        List.mem_singleton, List.mem_nil_iff, or_false] at hx
      rcases hx with (hx | ⟨i, _, hx⟩) | hx | hx | hx | hx <;> subst hx <;> simp [isEnter]
    rw [h2]
    simp [preCopyState, isEnter]

/-- C9, counterexample: with a failing loader `runprogram` returns the error
code 8 after the new address space has been installed, and on return the
process still has that address space as its current one; it was not
deactivated. -/
theorem loader_failure_not_rolled_back :
    (runprogram loadFailCollab progArgs none (fun _ => 0)).1 = Outcome.returned 8 ∧
    Event.curproc_setas (some 1) ∈ (runprogram loadFailCollab progArgs none (fun _ => 0)).2.trace ∧
    ¬ ((runprogram loadFailCollab progArgs none (fun _ => 0)).2.curas = none) ∧
    Event.as_deactivate ∉ (runprogram loadFailCollab progArgs none (fun _ => 0)).2.trace := by
  decide

/-- C9, amended: once the new address space is installed, a failing
destination-table allocation or a failing `copyout` makes `runprogram` call
`as_deactivate`, `curproc_setas(NULL)` and `as_destroy` before it returns the
error, so the process has no current address space on return; a failing
`load_elf` or `as_define_stack` returns its code with no rollback, the installed
address space still being the current one. -/
theorem rollback_after_installation (c : Collab) (args : List (List Nat)) (mem : Nat → Nat)
    (asp : Nat) (hargc : (args.length + 1) * 4 < WORD) (hk1 : c.kmalloc_argv = true)
    (ho : c.vfs_open.1 = 0) (ha : c.as_create = some asp) :
    (c.load_elf.1 ≠ 0 →
      (runprogram c args none mem).1 = Outcome.returned c.load_elf.1 ∧
      (runprogram c args none mem).2.curas = some asp ∧
      Event.as_deactivate ∉ (runprogram c args none mem).2.trace) ∧
    (c.load_elf.1 = 0 → c.as_define_stack.1 ≠ 0 →
      (runprogram c args none mem).1 = Outcome.returned c.as_define_stack.1 ∧
      (runprogram c args none mem).2.curas = some asp ∧
      Event.as_deactivate ∉ (runprogram c args none mem).2.trace) ∧
    (c.load_elf.1 = 0 → c.as_define_stack.1 = 0 →
      (∃ a s, (runprogram c args none mem).1 = Outcome.entered args.length a s c.load_elf.2) ∨
      (∃ e pre, (runprogram c args none mem).1 = Outcome.returned e ∧
        (runprogram c args none mem).2.curas = none ∧
        (runprogram c args none mem).2.trace =
          pre ++ [Event.as_deactivate, Event.curproc_setas none,
            Event.as_destroy (some asp)])) := by
  refine ⟨fun hl => ?_, fun hl hs => ?_, fun hl hs => ?_⟩
  · rw [runprogram_load_fail c args mem asp hargc hk1 ho ha hl]
    exact ⟨rfl, rfl, by simp⟩
  · rw [runprogram_stack_fail c args mem asp hargc hk1 ho ha hl hs]
    exact ⟨rfl, rfl, by simp⟩
  · cases hk2 : c.kmalloc_argPtrs with
    | false =>
      right
      rw [runprogram_argPtrs_fail c args mem asp hargc hk1 ho ha hl hs hk2]
      exact ⟨c.ENOMEM, (preCopyState args mem asp c.vfs_open.2).trace ++
        ((List.range args.length).map (fun i => Event.kfree (KPtr.arg i)) ++
          [Event.kfree KPtr.argv]), rfl, rfl, by simp [unwindEvents]⟩
    | true =>
      by_cases hr : (copyArgs c args args.length (preCopyLocals args c.as_define_stack.2)
          (preCopyState args mem asp c.vfs_open.2)).1.result = 0
      · left
        rw [runprogram_reach c args mem asp hargc hk1 ho ha hl hs hk2]
        simp only [hr, ne_eq, not_true_eq_false, if_false]
        exact ⟨_, _, rfl⟩
      · right
        obtain ⟨r1, r2, es, _, _, r5⟩ :=
          runprogram_copy_fail c args mem asp hargc hk1 ho ha hl hs hk2 hr
        exact ⟨_, (preCopyState args mem asp c.vfs_open.2).trace ++ es ++
          ([Event.kfree KPtr.argPtrs] ++
            (List.range args.length).map (fun i => Event.kfree (KPtr.arg i)) ++
            [Event.kfree KPtr.argv]), r1, r2, by rw [r5]; simp [unwindEvents]⟩

/-- C10: when open and address-space creation succeed and `load_elf` fails with
code `e`, `runprogram` returns `e`, its calls are exactly `kmalloc`, `vfs_open`,
`as_create`, `curproc_setas(as)`, `as_activate`, `load_elf`, `vfs_close` (so no
`as_destroy`, `as_deactivate` or `curproc_setas(NULL)`), and on return the
current address space of the process is still the newly created one. -/
theorem loader_failure (c : Collab) (args : List (List Nat)) (mem : Nat → Nat) (asp e : Nat)
    (hargc : (args.length + 1) * 4 < WORD) (hk1 : c.kmalloc_argv = true)
    (ho : c.vfs_open.1 = 0) (ha : c.as_create = some asp) (hl : c.load_elf.1 = e)
    (he : e ≠ 0) :
    (runprogram c args none mem).1 = Outcome.returned e ∧
    (runprogram c args none mem).2.curas = some asp ∧
    (runprogram c args none mem).2.trace =
      [Event.kmalloc ((args.length + 1) * 4), Event.vfs_open, Event.as_create,
       Event.curproc_setas (some asp), Event.as_activate, Event.load_elf c.vfs_open.2,
       Event.vfs_close c.vfs_open.2] ∧
    (∀ x, Event.as_destroy x ∉ (runprogram c args none mem).2.trace) ∧
    Event.as_deactivate ∉ (runprogram c args none mem).2.trace ∧
    Event.curproc_setas none ∉ (runprogram c args none mem).2.trace := by
  rw [runprogram_load_fail c args mem asp hargc hk1 ho ha (by rw [hl]; exact he), hl]
  exact ⟨rfl, rfl, rfl, fun x => by simp, by simp, by simp⟩

/-! ## The theorems at concrete inputs -/

/-- C1 at `["prog", "a", "bb"]` with the stack top at `0x80000000`: the bytes
read back at the address recorded for argument 0 are `"prog"` and its
terminator. -/
theorem string_round_trip_witness :
    (progArgs.map argLen).sum + 4 * (progArgs.length + 1) ≤ 0x80000000 ∧
    readCStr
      (copyArgs okCollab progArgs progArgs.length (preCopyLocals progArgs 0x80000000)
        zeroState).2.mem 5
      ((copyArgs okCollab progArgs progArgs.length (preCopyLocals progArgs 0x80000000)
        zeroState).1.argPtrs.getD 0 0)
      = some [112, 114, 111, 103, 0] :=
  ⟨by decide,
   string_round_trip okCollab progArgs 0x80000000 zeroState (fun _ => rfl) (by decide)
     (by decide) (by decide) 0 (by decide) 5 (by decide)⟩

/-- C2 at `["prog", "a", "bb"]` with the stack top at `0x80000000`. -/
theorem pointer_table_layout_witness :
    (∀ i, i < progArgs.length →
      readWord okCollab.bigEndian
        (copyArgs okCollab progArgs progArgs.length (preCopyLocals progArgs 0x80000000)
          zeroState).2.mem
        ((copyArgs okCollab progArgs progArgs.length (preCopyLocals progArgs 0x80000000)
          zeroState).1.stackptr + 4 * i)
        = (copyArgs okCollab progArgs progArgs.length (preCopyLocals progArgs 0x80000000)
          zeroState).1.argPtrs.getD i 0) ∧
    readWord okCollab.bigEndian
        (copyArgs okCollab progArgs progArgs.length (preCopyLocals progArgs 0x80000000)
          zeroState).2.mem
        ((copyArgs okCollab progArgs progArgs.length (preCopyLocals progArgs 0x80000000)
          zeroState).1.stackptr + 4 * progArgs.length) = 0 :=
  pointer_table_layout okCollab progArgs 0x80000000 zeroState (fun _ => rfl) (by decide)
    (by decide) (by decide)

/-- C3 at `["prog", "a", "bb"]` with the stack top at `0x80000000`. -/
theorem dest_addresses_ascending_witness :
    (∀ i j, i < j → j < progArgs.length →
      (copyArgs okCollab progArgs progArgs.length (preCopyLocals progArgs 0x80000000)
        zeroState).1.argPtrs.getD i 0 <
      (copyArgs okCollab progArgs progArgs.length (preCopyLocals progArgs 0x80000000)
        zeroState).1.argPtrs.getD j 0) ∧
    (copyArgs okCollab progArgs progArgs.length (preCopyLocals progArgs 0x80000000)
        zeroState).1.argPtrs.getD progArgs.length 0 = 0 :=
  dest_addresses_ascending okCollab progArgs 0x80000000 zeroState (fun _ => rfl) (by decide)
    (by decide) (by decide)

/-- C5 at `["prog", "a", "bb"]` with every collaborator succeeding. -/
theorem enter_new_process_values_witness :
    (runprogram okCollab progArgs none (fun _ => 0)).1 =
      Outcome.entered 3 0x7fffffe0 0x7fffffe0 0x400000 ∧
    enters (runprogram okCollab progArgs none (fun _ => 0)).2.trace =
      [Event.enter_new_process 3 0x7fffffe0 0x7fffffe0 0x400000] :=
  ⟨(enter_new_process_values okCollab progArgs (fun _ => 0) 1 rfl rfl rfl rfl rfl rfl
      (fun _ => rfl) (by decide) (by decide) (by decide)).1,
   (enter_new_process_values okCollab progArgs (fun _ => 0) 1 rfl rfl rfl rfl rfl rfl
      (fun _ => rfl) (by decide) (by decide) (by decide)).2.1⟩

/-- C6 with the stack top at `0x80000000`: the seven `copyout` calls and the
values handed to `enter_new_process`. -/
theorem scenario_prog_a_bb_witness :
    copyouts (runprogram okCollab progArgs none (fun _ => 0)).2.trace =
      [Event.copyout 0x7ffffffc [98, 98, 0] 0,
       Event.copyout 0x7ffffff8 [97, 0] 0,
       Event.copyout 0x7ffffff0 [112, 114, 111, 103, 0] 0,
       Event.copyout 0x7fffffec [0, 0, 0, 0] 0,
       Event.copyout 0x7fffffe8 [0x7f, 0xff, 0xff, 0xfc] 0,
       Event.copyout 0x7fffffe4 [0x7f, 0xff, 0xff, 0xf8] 0,
       Event.copyout 0x7fffffe0 [0x7f, 0xff, 0xff, 0xf0] 0] ∧
    (runprogram okCollab progArgs none (fun _ => 0)).1 =
      Outcome.entered 3 0x7fffffe0 0x7fffffe0 0x400000 :=
  ⟨(scenario_prog_a_bb okCollab (fun _ => 0) 1 rfl rfl rfl rfl rfl rfl (fun _ => rfl)
      (by decide) (by decide)).2.2.2.1,
   (scenario_prog_a_bb okCollab (fun _ => 0) 1 rfl rfl rfl rfl rfl rfl (fun _ => rfl)
      (by decide) (by decide)).2.2.2.2.2.2.1⟩

/-- C7 with the stack top at `0x80000000`. -/
theorem empty_argument_list_witness :
    copyouts (runprogram okCollab [] none (fun _ => 0)).2.trace =
      [Event.copyout 0x7ffffffc [0, 0, 0, 0] 0] ∧
    (runprogram okCollab [] none (fun _ => 0)).1 =
      Outcome.entered 0 0x7ffffffc 0x7ffffff8 0x400000 :=
  ⟨(empty_argument_list okCollab (fun _ => 0) 1 rfl rfl rfl rfl rfl rfl (fun _ => rfl)
      (by decide) (by decide)).1,
   (empty_argument_list okCollab (fun _ => 0) 1 rfl rfl rfl rfl rfl rfl (fun _ => rfl)
      (by decide) (by decide)).2.2.2⟩

/-- C8 at `["prog", "a", "bb"]` with the `copyout` of index 4 failing with
code 6. -/
theorem rollback_on_copyout_failure_witness :
    (runprogram copyFailCollab progArgs none (fun _ => 0)).1 = Outcome.returned 6 ∧
    (runprogram copyFailCollab progArgs none (fun _ => 0)).2.curas = none ∧
    (copyouts (runprogram copyFailCollab progArgs none (fun _ => 0)).2.trace).length = 5 ∧
    enters (runprogram copyFailCollab progArgs none (fun _ => 0)).2.trace = [] :=
  ⟨(rollback_on_copyout_failure copyFailCollab progArgs (fun _ => 0) 1 4 6 (by decide) rfl rfl
      rfl rfl rfl rfl (by decide) rfl (by decide) (fun _ hj => if_neg (Nat.ne_of_lt hj))).1,
   (rollback_on_copyout_failure copyFailCollab progArgs (fun _ => 0) 1 4 6 (by decide) rfl rfl
      rfl rfl rfl rfl (by decide) rfl (by decide) (fun _ hj => if_neg (Nat.ne_of_lt hj))).2.1,
   (rollback_on_copyout_failure copyFailCollab progArgs (fun _ => 0) 1 4 6 (by decide) rfl rfl
      rfl rfl rfl rfl (by decide) rfl (by decide) (fun _ hj => if_neg (Nat.ne_of_lt hj))).2.2.1,
   (rollback_on_copyout_failure copyFailCollab progArgs (fun _ => 0) 1 4 6 (by decide) rfl rfl
      rfl rfl rfl rfl (by decide) rfl (by decide)
      (fun _ hj => if_neg (Nat.ne_of_lt hj))).2.2.2.1⟩

/-- C9, amended, at `["prog", "a", "bb"]` with the `copyout` of index 4
failing: the run returns with the address space detached. -/
theorem rollback_after_installation_witness :
    (∃ a s, (runprogram copyFailCollab progArgs none (fun _ => 0)).1 =
      Outcome.entered progArgs.length a s copyFailCollab.load_elf.2) ∨
    (∃ e pre, (runprogram copyFailCollab progArgs none (fun _ => 0)).1 = Outcome.returned e ∧
      (runprogram copyFailCollab progArgs none (fun _ => 0)).2.curas = none ∧
      (runprogram copyFailCollab progArgs none (fun _ => 0)).2.trace =
        pre ++ [Event.as_deactivate, Event.curproc_setas none, Event.as_destroy (some 1)]) :=
  (rollback_after_installation copyFailCollab progArgs (fun _ => 0) 1 (by decide) rfl rfl
    rfl).2.2 rfl rfl

/-- C10 at `["prog", "a", "bb"]` with `load_elf` failing with code 8. -/
theorem loader_failure_witness :
    (runprogram loadFailCollab progArgs none (fun _ => 0)).1 = Outcome.returned 8 ∧
    (runprogram loadFailCollab progArgs none (fun _ => 0)).2.curas = some 1 ∧
    (runprogram loadFailCollab progArgs none (fun _ => 0)).2.trace =
      [Event.kmalloc 16, Event.vfs_open, Event.as_create, Event.curproc_setas (some 1),
       Event.as_activate, Event.load_elf 7, Event.vfs_close 7] :=
  ⟨(loader_failure loadFailCollab progArgs (fun _ => 0) 1 8 (by decide) rfl rfl rfl rfl
      (by decide)).1,
   (loader_failure loadFailCollab progArgs (fun _ => 0) 1 8 (by decide) rfl rfl rfl rfl
      (by decide)).2.1,
   (loader_failure loadFailCollab progArgs (fun _ => 0) 1 8 (by decide) rfl rfl rfl rfl
      (by decide)).2.2.1⟩

/-! ## The paths that end before the address space is installed -/

theorem runprogram_argv_fail (c : Collab) (args : List (List Nat)) (p : Option Nat)
    (mem : Nat → Nat) (hargc : (args.length + 1) * 4 < WORD) (hk1 : c.kmalloc_argv = false) :
    runprogram c args p mem =
      (Outcome.returned c.ENOMEM,
       { curas := p, mem := mem, ncopy := 0,
         trace := [Event.kmalloc ((args.length + 1) * 4)] }) := by
  unfold runprogram
  simp only [Nat.not_le.mpr hargc, hk1, KState.log, if_false, if_true, List.nil_append]

theorem runprogram_open_fail (c : Collab) (args : List (List Nat)) (p : Option Nat)
    (mem : Nat → Nat) (hargc : (args.length + 1) * 4 < WORD) (hk1 : c.kmalloc_argv = true)
    (ho : c.vfs_open.1 ≠ 0) :
    runprogram c args p mem =
      (Outcome.returned c.vfs_open.1,
       { curas := p, mem := mem, ncopy := 0,
         trace := [Event.kmalloc ((args.length + 1) * 4), Event.vfs_open] }) := by
  unfold runprogram
  simp only [Nat.not_le.mpr hargc, hk1, ho, KState.log, if_false, if_true, ne_eq,
    not_false_eq_true, List.nil_append, List.cons_append, Bool.true_eq_false]

theorem runprogram_assert_fail (c : Collab) (args : List (List Nat)) (a0 : Nat)
    (mem : Nat → Nat) (hargc : (args.length + 1) * 4 < WORD) (hk1 : c.kmalloc_argv = true)
    (ho : c.vfs_open.1 = 0) :
    runprogram c args (some a0) mem =
      (Outcome.assertFailed,
       { curas := some a0, mem := mem, ncopy := 0,
         trace := [Event.kmalloc ((args.length + 1) * 4), Event.vfs_open] }) := by
  unfold runprogram
  simp only [Nat.not_le.mpr hargc, hk1, ho, KState.log, if_false, if_true, ne_eq,
    not_true_eq_false, not_false_eq_true, List.nil_append, List.cons_append,
    Bool.true_eq_false, reduceCtorEq]

theorem runprogram_ascreate_fail (c : Collab) (args : List (List Nat)) (mem : Nat → Nat)
    (hargc : (args.length + 1) * 4 < WORD) (hk1 : c.kmalloc_argv = true)
    (ho : c.vfs_open.1 = 0) (ha : c.as_create = none) :
    runprogram c args none mem =
      (Outcome.returned c.ENOMEM,
       { curas := none, mem := mem, ncopy := 0,
         trace := [Event.kmalloc ((args.length + 1) * 4), Event.vfs_open, Event.as_create,
           Event.vfs_close c.vfs_open.2] }) := by
  unfold runprogram
  simp only [Nat.not_le.mpr hargc, hk1, ho, ha, KState.log, if_false, ne_eq,
    not_true_eq_false, List.nil_append, List.cons_append, Bool.true_eq_false]

/-! ## Ownership of the strings and of the two tables -/

/-- C11, the code at a failing input: with the `copyout` of index 4 failing,
`runprogram` returns the error after passing `argv[0]`, `argv[1]` and `argv[2]`
to `kfree`; these are the pointers `args[0]`, `args[1]`, `args[2]` of the
caller, copied at lines 70-73 and never duplicated.  The same happens when the
allocation of `argPtrs` fails. -/
theorem caller_strings_freed :
    (runprogram copyFailCollab progArgs none (fun _ => 0)).1 = Outcome.returned 6 ∧
    Event.kfree (KPtr.arg 0) ∈ (runprogram copyFailCollab progArgs none (fun _ => 0)).2.trace ∧
    Event.kfree (KPtr.arg 1) ∈ (runprogram copyFailCollab progArgs none (fun _ => 0)).2.trace ∧
    Event.kfree (KPtr.arg 2) ∈ (runprogram copyFailCollab progArgs none (fun _ => 0)).2.trace ∧
    (runprogram argPtrsFailCollab progArgs none (fun _ => 0)).1 = Outcome.returned 3 ∧
    Event.kfree (KPtr.arg 0) ∈
      (runprogram argPtrsFailCollab progArgs none (fun _ => 0)).2.trace := by
  decide

/-- C12, the code at failing inputs: when `vfs_open` fails `runprogram` returns
the error with `argv` allocated and never freed; and when everything succeeds
`enter_new_process` is reached with `argPtrs` freed once but `argv` not freed. -/
theorem argv_not_freed :
    (runprogram openFailCollab progArgs none (fun _ => 0)).1 = Outcome.returned 2 ∧
    (runprogram openFailCollab progArgs none (fun _ => 0)).2.trace =
      [Event.kmalloc 16, Event.vfs_open] ∧
    Event.kfree KPtr.argv ∉ (runprogram openFailCollab progArgs none (fun _ => 0)).2.trace ∧
    (runprogram okCollab progArgs none (fun _ => 0)).1 =
      Outcome.entered 3 0x7fffffe0 0x7fffffe0 0x400000 ∧
    Event.kfree KPtr.argv ∉ (runprogram okCollab progArgs none (fun _ => 0)).2.trace ∧
    ((runprogram okCollab progArgs none (fun _ => 0)).2.trace.filter
      (fun e => decide (e = Event.kfree KPtr.argPtrs))).length = 1 := by
  decide

/-! ## The image handle, the assertion and the error codes -/

theorem closes_of_copyouts (es : List Event) (h : ∀ e ∈ es, isCopyout e = true) :
    closes es = [] := by
  unfold closes
  rw [List.filter_eq_nil_iff]
  intro e he
  have := h e he
  cases e <;> simp_all [isCopyout, isClose]

theorem closes_unwindEvents (argc : Nat) (b : Bool) (asp : Option Nat) :
    closes (unwindEvents argc b asp) = [] := by
  unfold closes
  rw [List.filter_eq_nil_iff]
  intro x hx
  simp only [unwindEvents, List.mem_append, List.mem_map, List.mem_cons,
    List.mem_singleton, List.mem_nil_iff, or_false] at hx
  rcases hx with (hx | ⟨i, _, hx⟩) | hx | hx | hx | hx
  · cases b
    · simp at hx
    · simp at hx
      subst hx
      simp [isClose]
  all_goals subst hx; simp [isClose]

theorem closes_append (a b : List Event) : closes (a ++ b) = closes a ++ closes b := by
  simp [closes]

theorem closes_preCopyState (args : List (List Nat)) (mem : Nat → Nat) (asp v : Nat) :
    closes (preCopyState args mem asp v).trace = [Event.vfs_close v] := rfl

/-- C13: in every run in which `vfs_open` succeeds and the process has no
current address space, the trace of `runprogram` holds exactly one `vfs_close`,
that of the opened handle, whichever later step fails or when user mode is
entered; and a run in which `vfs_open` is not reached or fails holds none. -/
theorem vfs_close_once (c : Collab) (args : List (List Nat)) (mem : Nat → Nat)
    (hargc : (args.length + 1) * 4 < WORD) :
    (c.kmalloc_argv = true → c.vfs_open.1 = 0 →
      closes (runprogram c args none mem).2.trace = [Event.vfs_close c.vfs_open.2]) ∧
    (c.kmalloc_argv = true → c.vfs_open.1 ≠ 0 →
      ∀ p, closes (runprogram c args p mem).2.trace = []) ∧
    (c.kmalloc_argv = false → ∀ p, closes (runprogram c args p mem).2.trace = []) := by
  refine ⟨fun hk1 ho => ?_, fun hk1 ho p => ?_, fun hk1 p => ?_⟩
  · cases ha : c.as_create with
    | none =>
      rw [runprogram_ascreate_fail c args mem hargc hk1 ho ha]
      rfl
    | some asp =>
      by_cases hl : c.load_elf.1 = 0
      · by_cases hs : c.as_define_stack.1 = 0
        · cases hk2 : c.kmalloc_argPtrs with
          | false =>
            rw [runprogram_argPtrs_fail c args mem asp hargc hk1 ho ha hl hs hk2]
            simp only [closes_append, closes_preCopyState, closes_unwindEvents,
              List.append_nil]
          | true =>
            by_cases hr : (copyArgs c args args.length (preCopyLocals args c.as_define_stack.2)
                (preCopyState args mem asp c.vfs_open.2)).1.result = 0
            · obtain ⟨es, t1, t2, _⟩ := (copyArgs_run c args args.length
                (preCopyLocals args c.as_define_stack.2)
                (preCopyState args mem asp c.vfs_open.2) rfl).trace
              rw [runprogram_reach c args mem asp hargc hk1 ho ha hl hs hk2]
              simp only [hr, ne_eq, not_true_eq_false, if_false, KState.log, t1, closes_append,
                closes_preCopyState, closes_of_copyouts es t2]
              rfl
            · obtain ⟨_, _, es, r3, _, r5⟩ :=
                runprogram_copy_fail c args mem asp hargc hk1 ho ha hl hs hk2 hr
              rw [r5]
              simp only [closes_append, closes_preCopyState, closes_of_copyouts es r3,
                closes_unwindEvents, List.append_nil]
        · rw [runprogram_stack_fail c args mem asp hargc hk1 ho ha hl hs]
          rfl
      · rw [runprogram_load_fail c args mem asp hargc hk1 ho ha hl]
        rfl
  · rw [runprogram_open_fail c args p mem hargc hk1 ho]
    rfl
  · rw [runprogram_argv_fail c args p mem hargc hk1]
    rfl

/-- C14: when the process already has a current address space at the check of
line 84, the assertion fails: no error code is returned, the only calls made are
`kmalloc` and `vfs_open`, so `as_create`, `curproc_setas` and `as_activate` have
not been called, and the current address space of the process is unchanged. -/
theorem active_address_space_rejected (c : Collab) (args : List (List Nat)) (a0 : Nat)
    (mem : Nat → Nat) (hargc : (args.length + 1) * 4 < WORD) (hk1 : c.kmalloc_argv = true)
    (ho : c.vfs_open.1 = 0) :
    (runprogram c args (some a0) mem).1 = Outcome.assertFailed ∧
    (runprogram c args (some a0) mem).2.curas = some a0 ∧
    (runprogram c args (some a0) mem).2.trace =
      [Event.kmalloc ((args.length + 1) * 4), Event.vfs_open] ∧
    Event.as_create ∉ (runprogram c args (some a0) mem).2.trace ∧
    (∀ x, Event.curproc_setas x ∉ (runprogram c args (some a0) mem).2.trace) ∧
    Event.as_activate ∉ (runprogram c args (some a0) mem).2.trace := by
  rw [runprogram_assert_fail c args a0 mem hargc hk1 ho]
  exact ⟨rfl, rfl, rfl, by simp, fun x => by simp, by simp⟩

/-- C15: `runprogram` returns the code of the first step that fails and attempts
no later step.  A failing allocation of `argv` gives `ENOMEM` with no other
call; a failing `vfs_open` gives its code with no address space created; a
failing `as_create` gives `ENOMEM`; a failing `load_elf` or `as_define_stack`
gives its code; a failing allocation of `argPtrs` gives `ENOMEM` with no
`copyout`; the first failing `copyout` gives its code, with no further
`copyout` and no `enter_new_process`.  After the failing step only the cleanup
calls of that path appear in the trace. -/
theorem first_failing_step (c : Collab) (args : List (List Nat)) (mem : Nat → Nat)
    (hargc : (args.length + 1) * 4 < WORD) :
    (c.kmalloc_argv = false → ∀ p,
      (runprogram c args p mem).1 = Outcome.returned c.ENOMEM ∧
      (runprogram c args p mem).2.trace = [Event.kmalloc ((args.length + 1) * 4)]) ∧
    (c.kmalloc_argv = true → c.vfs_open.1 ≠ 0 → ∀ p,
      (runprogram c args p mem).1 = Outcome.returned c.vfs_open.1 ∧
      (runprogram c args p mem).2.trace =
        [Event.kmalloc ((args.length + 1) * 4), Event.vfs_open]) ∧
    (c.kmalloc_argv = true → c.vfs_open.1 = 0 → c.as_create = none →
      (runprogram c args none mem).1 = Outcome.returned c.ENOMEM ∧
      (runprogram c args none mem).2.trace =
        [Event.kmalloc ((args.length + 1) * 4), Event.vfs_open, Event.as_create,
         Event.vfs_close c.vfs_open.2]) ∧
    (∀ asp, c.kmalloc_argv = true → c.vfs_open.1 = 0 → c.as_create = some asp →
      (c.load_elf.1 ≠ 0 →
        (runprogram c args none mem).1 = Outcome.returned c.load_elf.1 ∧
        (runprogram c args none mem).2.trace =
          [Event.kmalloc ((args.length + 1) * 4), Event.vfs_open, Event.as_create,
           Event.curproc_setas (some asp), Event.as_activate, Event.load_elf c.vfs_open.2,
           Event.vfs_close c.vfs_open.2]) ∧
      (c.load_elf.1 = 0 → c.as_define_stack.1 ≠ 0 →
        (runprogram c args none mem).1 = Outcome.returned c.as_define_stack.1 ∧
        (runprogram c args none mem).2.trace =
          [Event.kmalloc ((args.length + 1) * 4), Event.vfs_open, Event.as_create,
           Event.curproc_setas (some asp), Event.as_activate, Event.load_elf c.vfs_open.2,
           Event.vfs_close c.vfs_open.2, Event.as_define_stack asp]) ∧
      (c.load_elf.1 = 0 → c.as_define_stack.1 = 0 → c.kmalloc_argPtrs = false →
        (runprogram c args none mem).1 = Outcome.returned c.ENOMEM ∧
        (runprogram c args none mem).2.trace =
          (preCopyState args mem asp c.vfs_open.2).trace ++
            unwindEvents args.length false (some asp)) ∧
      (c.load_elf.1 = 0 → c.as_define_stack.1 = 0 → c.kmalloc_argPtrs = true →
        ∀ k e, k < 2 * args.length + 1 → c.copyout k = e → e ≠ 0 →
          (∀ j, j < k → c.copyout j = 0) →
          (runprogram c args none mem).1 = Outcome.returned e ∧
          ∃ es, (∀ x ∈ es, isCopyout x = true) ∧ es.length = k + 1 ∧
            (runprogram c args none mem).2.trace =
              (preCopyState args mem asp c.vfs_open.2).trace ++ es ++
                unwindEvents args.length true (some asp))) := by
  refine ⟨fun hk1 p => ?_, fun hk1 ho p => ?_, fun hk1 ho ha => ?_, fun asp hk1 ho ha =>
    ⟨fun hl => ?_, fun hl hs => ?_, fun hl hs hk2 => ?_, fun hl hs hk2 k e hk hf he hb => ?_⟩⟩
  · rw [runprogram_argv_fail c args p mem hargc hk1]
    exact ⟨rfl, rfl⟩
  · rw [runprogram_open_fail c args p mem hargc hk1 ho]
    exact ⟨rfl, rfl⟩
  · rw [runprogram_ascreate_fail c args mem hargc hk1 ho ha]
    exact ⟨rfl, rfl⟩
  · rw [runprogram_load_fail c args mem asp hargc hk1 ho ha hl]
    exact ⟨rfl, rfl⟩
  · rw [runprogram_stack_fail c args mem asp hargc hk1 ho ha hl hs]
    exact ⟨rfl, rfl⟩
  · rw [runprogram_argPtrs_fail c args mem asp hargc hk1 ho ha hl hs hk2]
    exact ⟨rfl, rfl⟩
  · obtain ⟨f1, f2⟩ := copyArgs_first_failure c args (preCopyLocals args c.as_define_stack.2)
      (preCopyState args mem asp c.vfs_open.2) rfl rfl k e hk hf he hb
    obtain ⟨r1, _, es, r3, r4, r5⟩ := runprogram_copy_fail c args mem asp hargc hk1 ho ha hl hs
      hk2 (by rw [f1]; exact he)
    rw [f1] at r1
    rw [f2] at r4
    exact ⟨r1, es, r3, r4, r5⟩

/-- C15 at `["prog", "a", "bb"]` with `vfs_open` failing with code 2: the code
is returned after `kmalloc` and `vfs_open` only. -/
theorem first_failing_step_witness :
    (runprogram openFailCollab progArgs none (fun _ => 0)).1 = Outcome.returned 2 ∧
    (runprogram openFailCollab progArgs none (fun _ => 0)).2.trace =
      [Event.kmalloc 16, Event.vfs_open] :=
  (first_failing_step openFailCollab progArgs (fun _ => 0) (by decide)).2.1 rfl (by decide)
    none

/-- C13 at `["prog", "a", "bb"]` with every collaborator succeeding: one
`vfs_close`, of handle 7. -/
theorem vfs_close_once_witness :
    closes (runprogram okCollab progArgs none (fun _ => 0)).2.trace = [Event.vfs_close 7] :=
  (vfs_close_once okCollab progArgs (fun _ => 0) (by decide)).1 rfl rfl

/-- C14 at `["prog", "a", "bb"]` with address space 5 already current. -/
theorem active_address_space_rejected_witness :
    (runprogram okCollab progArgs (some 5) (fun _ => 0)).1 = Outcome.assertFailed ∧
    (runprogram okCollab progArgs (some 5) (fun _ => 0)).2.curas = some 5 ∧
    (runprogram okCollab progArgs (some 5) (fun _ => 0)).2.trace =
      [Event.kmalloc 16, Event.vfs_open] :=
  ⟨(active_address_space_rejected okCollab progArgs 5 (fun _ => 0) (by decide) rfl rfl).1,
   (active_address_space_rejected okCollab progArgs 5 (fun _ => 0) (by decide) rfl rfl).2.1,
   (active_address_space_rejected okCollab progArgs 5 (fun _ => 0) (by decide) rfl rfl).2.2.1⟩

/-! ## Alignment -/

theorem used_mod4 {argv : List (List Nat)} (hlen : ∀ b ∈ argv, strlen b + 4 < WORD) :
    ∀ n, n ≤ argv.length → used argv n % 4 = 0 := by
  intro n
  induction n with
  | zero => intro _; simp [used_zero]
  | succ n ih =>
    intro hn
    have hmem : argv.getD n [] ∈ argv := by
      rw [List.getD_eq_getElem?_getD, List.getElem?_eq_getElem (by omega)]
      exact List.getElem_mem _
    have hb := argLen_bounds (hlen _ hmem)
    have := ih (by omega)
    rw [used_succ (by omega)]
    omega

theorem stringLoop_frame (c : Collab) (argv : List (List Nat)) :
    ∀ (n : Nat) (l : Locals) (st : KState) (i : Nat), n ≤ i →
      (stringLoop c argv n l st).1.argPtrs.getD i 0 = l.argPtrs.getD i 0 := by
  intro n
  induction n with
  | zero =>
    intro l st i _
    rfl
  | succ n ih =>
    intro l st i hi
    rw [stringLoop]
    simp only [copyout]
    by_cases h0 : c.copyout st.ncopy = 0
    · simp only [h0, ne_eq, not_true_eq_false, if_false, if_true]
      rw [ih _ _ i (by omega)]
      simp only
      rw [List.getD_eq_getElem?_getD, List.getElem?_set_ne (by omega),
        ← List.getD_eq_getElem?_getD]
    · simp only [h0, ne_eq, not_false_eq_true, if_true, if_false]

theorem pointerLoop_argPtrs (c : Collab) :
    ∀ (n : Nat) (l : Locals) (st : KState), (pointerLoop c n l st).1.argPtrs = l.argPtrs := by
  intro n
  induction n with
  | zero =>
    intro l st
    rfl
  | succ n ih =>
    intro l st
    rw [pointerLoop]
    simp only [copyout]
    by_cases h0 : c.copyout st.ncopy = 0
    · simp only [h0, ne_eq, not_true_eq_false, if_false, if_true]
      rw [ih]
    · simp only [h0, ne_eq, not_false_eq_true, if_true, if_false]

theorem copyArgs_argPtrs (c : Collab) (argv : List (List Nat)) (argc : Nat) (l : Locals)
    (st : KState) (i : Nat) (hi : i < argc) :
    (copyArgs c argv argc l st).1.argPtrs.getD i 0 =
      (stringLoop c argv argc l st).1.argPtrs.getD i 0 := by
  unfold copyArgs
  simp only
  by_cases hr : (stringLoop c argv argc l st).1.result = 0
  · simp only [hr, ne_eq, not_true_eq_false, if_false]
    rw [pointerLoop_argPtrs]
    simp only
    rw [List.getD_eq_getElem?_getD, List.getElem?_set_ne (by omega),
      ← List.getD_eq_getElem?_getD]
  · simp only [hr, ne_eq, not_false_eq_true, if_true]

theorem stringLoop_recorded (c : Collab) (argv : List (List Nat))
    (hlen : ∀ b ∈ argv, strlen b + 4 < WORD) :
    ∀ (n : Nat) (l : Locals) (st : KState), n ≤ argv.length → n ≤ l.argPtrs.length →
      l.stackptr < WORD → used argv n ≤ l.stackptr →
      ∀ i, i < n → (∀ k, k ≤ n - 1 - i → c.copyout (st.ncopy + k) = 0) →
        (stringLoop c argv n l st).1.argPtrs.getD i 0 =
          l.stackptr - used argv n + used argv i := by
  intro n
  induction n with
  | zero =>
    intro l st _ _ _ _ i hi
    omega
  | succ n ih =>
    intro l st hn hp hsp hfit i hi hrec
    have hmem : argv.getD n [] ∈ argv := by
      rw [List.getD_eq_getElem?_getD, List.getElem?_eq_getElem (by omega)]
      exact List.getElem_mem _
    have hl := hlen _ hmem
    have hb := argLen_bounds hl
    have hu := used_succ (show n < argv.length by omega)
    have h0 : c.copyout st.ncopy = 0 := by
      have := hrec 0 (Nat.zero_le _)
      simpa using this
    rw [stringLoop_step c argv n l st h0 hl hsp (by omega)]
    rcases Nat.lt_or_ge i n with h | h
    · rw [ih (stringStepL argv n l) (stringStepS argv n l st) (by omega)
        (by simpa [stringStepL] using (by omega : n ≤ l.argPtrs.length))
        (by simp only [stringStepL]; omega) (by simp only [stringStepL]; omega) i h
        (fun k hk => by
          have := hrec (k + 1) (by omega)
          rw [stringStepS_ncopy]
          rw [show st.ncopy + 1 + k = st.ncopy + (k + 1) by omega]
          exact this)]
      simp only [stringStepL_stackptr]
      omega
    · have : i = n := by omega
      subst this
      rw [stringLoop_frame c argv i _ _ i (le_refl _), stringStepL_argPtrs,
        List.getD_eq_getElem?_getD, List.getElem?_set_self (by omega)]
      simp only [Option.getD_some]
      omega

/-- C16: without wrap-around, every destination address that the string loop
has recorded lies a multiple of 4 below the initial stack pointer `s0`, so it is
a multiple of 4 whenever `s0` is.  The entry of index `i` is recorded once the
strings `argc - 1, ..., i` have been copied, that is once the `copyout` calls
number `0` to `argc - 1 - i` of the loops have succeeded, whatever the later
calls answer. -/
theorem string_copies_aligned (c : Collab) (args : List (List Nat)) (s0 : Nat) (st : KState)
    (hlen : ∀ b ∈ args, strlen b + 4 < WORD) (hs0 : s0 < WORD)
    (hfit : (args.map argLen).sum ≤ s0) (i : Nat) (hi : i < args.length)
    (hrec : ∀ k, k ≤ args.length - 1 - i → c.copyout (st.ncopy + k) = 0) :
    (copyArgs c args args.length (preCopyLocals args s0) st).1.argPtrs.getD i 0 ≤ s0 ∧
    (s0 - (copyArgs c args args.length (preCopyLocals args s0) st).1.argPtrs.getD i 0) % 4
      = 0 ∧
    (s0 % 4 = 0 →
      (copyArgs c args args.length (preCopyLocals args s0) st).1.argPtrs.getD i 0 % 4 = 0) := by
  rw [← used_length] at hfit
  rw [copyArgs_argPtrs c args args.length _ st i hi,
    stringLoop_recorded c args hlen args.length (preCopyLocals args s0) st (le_refl _)
      (by simp [preCopyLocals]) hs0 hfit i hi hrec]
  have h1 := used_mod4 hlen args.length (le_refl _)
  have h2 := used_mod4 hlen i (by omega)
  have h3 := used_mono (Nat.le_of_lt hi) (le_refl args.length)
  simp only [preCopyLocals_stackptr]
  omega

/-- C16 at `["prog", "a", "bb"]` with the stack top at `0x80000000`, for the
entry of index 0. -/
theorem string_copies_aligned_witness :
    (copyArgs okCollab progArgs progArgs.length (preCopyLocals progArgs 0x80000000)
      zeroState).1.argPtrs.getD 0 0 ≤ 0x80000000 ∧
    (0x80000000 - (copyArgs okCollab progArgs progArgs.length
      (preCopyLocals progArgs 0x80000000) zeroState).1.argPtrs.getD 0 0) % 4 = 0 ∧
    (0x80000000 % 4 = 0 →
      (copyArgs okCollab progArgs progArgs.length (preCopyLocals progArgs 0x80000000)
        zeroState).1.argPtrs.getD 0 0 % 4 = 0) :=
  string_copies_aligned okCollab progArgs 0x80000000 zeroState (by decide) (by decide)
    (by decide) 0 (by decide) (fun _ _ => rfl)

/-- C18: with `USERSTACK` a multiple of 8 (a `vaddr_t`), for every pre-alignment
cursor `p ≤ USERSTACK` the final stack pointer
`f = USERSTACK - ROUNDUP(USERSTACK - p, 8)` satisfies `f ≤ p` and `p - f < 8`:
the alignment step moves the stack pointer down, by less than 8 bytes, so the
pointer table and the strings, which start at `p`, lie at addresses `≥ f`. -/
theorem final_stackptr_below (USERSTACK p : Nat) (hU : USERSTACK < WORD)
    (hU8 : USERSTACK % 8 = 0) (hp : p ≤ USERSTACK) :
    USERSTACK - p + 7 < WORD ∧
    finalStackptr USERSTACK p ≤ p ∧ p - finalStackptr USERSTACK p < 8 := by
  unfold finalStackptr
  simp only
  unfold ROUNDUP sub32
  rw [WORD_eq] at *
  omega

/-- C18 at `USERSTACK = 0x80000000` and `p = 0x7fffffdc`: the final stack
pointer is `0x7fffffd8`. -/
theorem final_stackptr_below_witness :
    finalStackptr 0x80000000 0x7fffffdc = 0x7fffffd8 ∧
    0x80000000 - 0x7fffffdc + 7 < WORD ∧
    finalStackptr 0x80000000 0x7fffffdc ≤ 0x7fffffdc ∧
    0x7fffffdc - finalStackptr 0x80000000 0x7fffffdc < 8 :=
  ⟨by decide, final_stackptr_below 0x80000000 0x7fffffdc (by decide) (by decide) (by decide)⟩

/-! ## The copyout calls in closed form -/

theorem stringLoop_trace (c : Collab) (argv : List (List Nat)) (hc : ∀ k, c.copyout k = 0)
    (hlen : ∀ b ∈ argv, strlen b + 4 < WORD) :
    ∀ (n : Nat) (l : Locals) (st : KState), n ≤ argv.length →
      l.stackptr < WORD → used argv n ≤ l.stackptr →
      (stringLoop c argv n l st).2.trace = st.trace ++ stringEvents argv l.stackptr n := by
  intro n
  induction n with
  | zero =>
    intro l st _ _ _
    simp [stringLoop, stringEvents]
  | succ n ih =>
    intro l st hn hsp hfit
    have hmem : argv.getD n [] ∈ argv := by
      rw [List.getD_eq_getElem?_getD, List.getElem?_eq_getElem (by omega)]
      exact List.getElem_mem _
    have hl := hlen _ hmem
    have hb := argLen_bounds hl
    have hu := used_succ (show n < argv.length by omega)
    rw [stringLoop_step c argv n l st (hc _) hl hsp (by omega),
      ih (stringStepL argv n l) (stringStepS argv n l st) (by omega)
        (by simp only [stringStepL]; omega) (by simp only [stringStepL]; omega)]
    simp only [stringStepS_trace, stringStepL_stackptr, stringEvents, List.range_succ,
      List.reverse_append, List.reverse_cons, List.reverse_nil, List.nil_append,
      List.singleton_append, List.map_cons, List.append_assoc]
    congr 2
    · congr 1
      omega
    · apply List.map_congr_left
      intro i hi
      have hi2 : i < n := by simpa using hi
      have := used_mono (Nat.le_of_lt hi2) (show n ≤ argv.length by omega)
      congr 1
      omega

theorem pointerLoop_trace (c : Collab) (hc : ∀ k, c.copyout k = 0) :
    ∀ (n : Nat) (l : Locals) (st : KState), l.stackptr < WORD → 4 * n ≤ l.stackptr →
      (pointerLoop c n l st).2.trace =
        st.trace ++ ptrEvents c.bigEndian l.argPtrs l.stackptr n := by
  intro n
  induction n with
  | zero =>
    intro l st _ _
    simp [pointerLoop, ptrEvents]
  | succ n ih =>
    intro l st hsp hfit
    rw [pointerLoop_step c n l st (hc _) hsp (by omega),
      ih (ptrStepL l) (ptrStepS c n l st) (by simp only [ptrStepL]; omega)
        (by simp only [ptrStepL]; omega)]
    simp only [ptrStepS_trace, ptrStepL_stackptr, ptrStepL_argPtrs, ptrEvents, List.range_succ,
      List.reverse_append, List.reverse_cons, List.reverse_nil, List.nil_append,
      List.singleton_append, List.map_cons, List.append_assoc]
    congr 2
    · congr 1
      omega
    · apply List.map_congr_left
      intro i hi
      have hi2 : i < n := by simpa using hi
      congr 1
      omega

theorem copyArgs_trace (c : Collab) (argv : List (List Nat)) (l : Locals) (st : KState)
    (hc : ∀ k, c.copyout k = 0) (hlen : ∀ b ∈ argv, strlen b + 4 < WORD)
    (hp : l.argPtrs.length = argv.length + 1) (hsp : l.stackptr < WORD)
    (hfit : used argv argv.length + 4 * (argv.length + 1) ≤ l.stackptr) (hres : l.result = 0) :
    (copyArgs c argv argv.length l st).2.trace =
      st.trace ++ (stringEvents argv l.stackptr argv.length ++
        ptrEvents c.bigEndian (copyArgs c argv argv.length l st).1.argPtrs
          (l.stackptr - used argv argv.length) (argv.length + 1)) := by
  obtain ⟨s1, s2, _⟩ :=
    stringLoop_ok c argv hc hlen argv.length l st (le_refl _) (by omega) hsp (by omega) hres
  have hcopy : copyArgs c argv argv.length l st =
      pointerLoop c (argv.length + 1)
        { (stringLoop c argv argv.length l st).1 with
          argPtrs := (stringLoop c argv argv.length l st).1.argPtrs.set argv.length 0 }
        (stringLoop c argv argv.length l st).2 := by
    simp only [copyArgs, s1, ne_eq, not_true_eq_false, if_false]
  have ht := pointerLoop_trace c hc (argv.length + 1)
      { (stringLoop c argv argv.length l st).1 with
        argPtrs := (stringLoop c argv argv.length l st).1.argPtrs.set argv.length 0 }
      (stringLoop c argv argv.length l st).2
      (by simp only [s2]; omega) (by simp only [s2]; omega)
  have hpa := pointerLoop_argPtrs c (argv.length + 1)
      { (stringLoop c argv argv.length l st).1 with
        argPtrs := (stringLoop c argv argv.length l st).1.argPtrs.set argv.length 0 }
      (stringLoop c argv argv.length l st).2
  rw [← hcopy] at ht hpa
  rw [ht, hpa, stringLoop_trace c argv hc hlen argv.length l st (le_refl _) hsp (by omega)]
  simp only [s2, List.append_assoc]

theorem mem_stringEvents {argv : List (List Nat)} {S n : Nat} {e : Event}
    (h : e ∈ stringEvents argv S n) :
    ∃ i, i < n ∧ e = Event.copyout (S - used argv n + used argv i)
      (cstring (argv.getD i []) ++ [0]) 0 := by
  simp only [stringEvents, List.mem_map, List.mem_reverse, List.mem_range] at h
  obtain ⟨i, hi, he⟩ := h
  exact ⟨i, hi, he.symm⟩

theorem mem_ptrEvents {be : Bool} {ptrs : List Nat} {S n : Nat} {e : Event}
    (h : e ∈ ptrEvents be ptrs S n) :
    ∃ i, i < n ∧ e = Event.copyout (S - 4 * n + 4 * i) (wordBytes be (ptrs.getD i 0)) 0 := by
  simp only [ptrEvents, List.mem_map, List.mem_reverse, List.mem_range] at h
  obtain ⟨i, hi, he⟩ := h
  exact ⟨i, hi, he.symm⟩

theorem cstring_length (buf : List Nat) : (cstring buf ++ [0]).length = strlen buf + 1 := by
  simp [strlen]

theorem getD_mem {argv : List (List Nat)} {i : Nat} (hi : i < argv.length) :
    argv.getD i [] ∈ argv := by
  rw [List.getD_eq_getElem?_getD, List.getElem?_eq_getElem hi]
  exact List.getElem_mem _

theorem stringEvents_bounds {argv : List (List Nat)} (hlen : ∀ b ∈ argv, strlen b + 4 < WORD)
    {S n : Nat} (hn : n ≤ argv.length) (hfit : used argv n ≤ S) {e : Event}
    (h : e ∈ stringEvents argv S n) :
    isCopyout e = true ∧ S - used argv n ≤ e.lo ∧ e.lo < e.hi ∧ e.hi ≤ S := by
  obtain ⟨i, hi, rfl⟩ := mem_stringEvents h
  have hb := argLen_bounds (hlen _ (getD_mem (show i < argv.length by omega)))
  have hu := used_succ (show i < argv.length by omega)
  have hm := used_mono (show i + 1 ≤ n by omega) hn
  simp only [isCopyout, Event.lo, Event.hi, cstring_length, true_and]
  omega

theorem ptrEvents_bounds {be : Bool} {ptrs : List Nat} {S n : Nat} (hfit : 4 * n ≤ S)
    {e : Event} (h : e ∈ ptrEvents be ptrs S n) :
    isCopyout e = true ∧ S - 4 * n ≤ e.lo ∧ e.lo < e.hi ∧ e.hi ≤ S := by
  obtain ⟨i, hi, rfl⟩ := mem_ptrEvents h
  simp only [isCopyout, Event.lo, Event.hi, wordBytes_length, true_and]
  omega

theorem stringEvents_descending {argv : List (List Nat)}
    (hlen : ∀ b ∈ argv, strlen b + 4 < WORD) {S n : Nat} (hn : n ≤ argv.length) :
    (stringEvents argv S n).Pairwise (fun e1 e2 => e2.hi ≤ e1.lo) := by
  unfold stringEvents
  rw [List.pairwise_map, List.pairwise_reverse]
  refine List.Pairwise.imp_of_mem ?_ (List.pairwise_lt_range n)
  intro i j _ hj hij
  have hj2 : j < n := List.mem_range.mp hj
  have hb := argLen_bounds (hlen _ (getD_mem (show i < argv.length by omega)))
  have hu := used_succ (show i < argv.length by omega)
  have hm := used_mono (show i + 1 ≤ j by omega) (show j ≤ argv.length by omega)
  simp only [Event.lo, Event.hi, cstring_length]
  omega

theorem ptrEvents_descending {be : Bool} {ptrs : List Nat} {S n : Nat} :
    (ptrEvents be ptrs S n).Pairwise (fun e1 e2 => e2.hi ≤ e1.lo) := by
  unfold ptrEvents
  rw [List.pairwise_map, List.pairwise_reverse]
  refine List.Pairwise.imp_of_mem ?_ (List.pairwise_lt_range n)
  intro i j _ hj hij
  have hj2 : j < n := List.mem_range.mp hj
  simp only [Event.lo, Event.hi, wordBytes_length]
  omega

theorem allEvents_descending {argv : List (List Nat)} (hlen : ∀ b ∈ argv, strlen b + 4 < WORD)
    (be : Bool) (ptrs : List Nat) {S : Nat}
    (hfit : used argv argv.length + 4 * (argv.length + 1) ≤ S) :
    (stringEvents argv S argv.length ++
      ptrEvents be ptrs (S - used argv argv.length) (argv.length + 1)).Pairwise
      (fun e1 e2 => e2.hi ≤ e1.lo) := by
  rw [List.pairwise_append]
  refine ⟨stringEvents_descending hlen (le_refl _), ptrEvents_descending, ?_⟩
  intro a ha b hb
  have h1 := stringEvents_bounds hlen (le_refl _) (by omega) ha
  have h2 := ptrEvents_bounds (by omega) hb
  omega

theorem filter_isCopyout_self {es : List Event} (h : ∀ e ∈ es, isCopyout e = true) :
    es.filter isCopyout = es :=
  List.filter_eq_self.mpr h

theorem runprogram_copyouts (c : Collab) (args : List (List Nat)) (mem : Nat → Nat)
    (asp : Nat) (hk1 : c.kmalloc_argv = true) (ho : c.vfs_open.1 = 0)
    (ha : c.as_create = some asp) (hl : c.load_elf.1 = 0) (hs : c.as_define_stack.1 = 0)
    (hk2 : c.kmalloc_argPtrs = true) (hc : ∀ k, c.copyout k = 0)
    (hlen : ∀ b ∈ args, strlen b + 4 < WORD) (hs0 : c.as_define_stack.2 < WORD)
    (hfit : used args args.length + 4 * (args.length + 1) ≤ c.as_define_stack.2) :
    (runprogram c args none mem).1 =
      Outcome.entered args.length
        (copyArgs c args args.length (preCopyLocals args c.as_define_stack.2)
          (preCopyState args mem asp c.vfs_open.2)).1.stackptr
        (finalStackptr c.USERSTACK
          (copyArgs c args args.length (preCopyLocals args c.as_define_stack.2)
            (preCopyState args mem asp c.vfs_open.2)).1.stackptr)
        c.load_elf.2 ∧
    copyouts (runprogram c args none mem).2.trace =
      stringEvents args c.as_define_stack.2 args.length ++
        ptrEvents c.bigEndian
          (copyArgs c args args.length (preCopyLocals args c.as_define_stack.2)
            (preCopyState args mem asp c.vfs_open.2)).1.argPtrs
          (c.as_define_stack.2 - used args args.length) (args.length + 1) := by
  have hargc : (args.length + 1) * 4 < WORD := by omega
  obtain ⟨h1, _⟩ :=
    copyArgs_ok c args (preCopyLocals args c.as_define_stack.2)
      (preCopyState args mem asp c.vfs_open.2) hc hlen (by simp [preCopyLocals]) hs0 hfit rfl
  have ht := copyArgs_trace c args (preCopyLocals args c.as_define_stack.2)
      (preCopyState args mem asp c.vfs_open.2) hc hlen (by simp [preCopyLocals]) hs0 hfit rfl
  rw [preCopyLocals_stackptr] at ht
  rw [runprogram_reach c args mem asp hargc hk1 ho ha hl hs hk2]
  simp only [h1, ne_eq, not_true_eq_false, if_false, KState.log, ht, true_and]
  simp only [copyouts, List.filter_append]
  have hse : ∀ e ∈ stringEvents args c.as_define_stack.2 args.length, isCopyout e = true :=
    fun e he => (stringEvents_bounds hlen (le_refl _) (by omega) he).1
  have hpe : ∀ e ∈ ptrEvents c.bigEndian
      (copyArgs c args args.length (preCopyLocals args c.as_define_stack.2)
        (preCopyState args mem asp c.vfs_open.2)).1.argPtrs
      (c.as_define_stack.2 - used args args.length) (args.length + 1), isCopyout e = true :=
    fun e he => (ptrEvents_bounds (by omega) he).1
  rw [filter_isCopyout_self hse, filter_isCopyout_self hpe]
  simp [preCopyState, isCopyout]

/-- C19: when every copy succeeds without wrap-around, `runprogram` issues
`2 * argc + 1` calls of `copyout`; each stores a non-empty range of bytes
contained in `[argv base, s0)`, where `argv base` is the cursor after the
pointer loop (the argv address passed to `enter_new_process`) and `s0` the
stack pointer returned by `as_define_stack`; and the ranges of any two of
these calls are disjoint. -/
theorem copyout_ranges_disjoint (c : Collab) (args : List (List Nat)) (mem : Nat → Nat)
    (asp : Nat) (hk1 : c.kmalloc_argv = true) (ho : c.vfs_open.1 = 0)
    (ha : c.as_create = some asp) (hl : c.load_elf.1 = 0) (hs : c.as_define_stack.1 = 0)
    (hk2 : c.kmalloc_argPtrs = true) (hc : ∀ k, c.copyout k = 0)
    (hlen : ∀ b ∈ args, strlen b + 4 < WORD) (hs0 : c.as_define_stack.2 < WORD)
    (hfit : (args.map argLen).sum + 4 * (args.length + 1) ≤ c.as_define_stack.2) :
    (runprogram c args none mem).1 =
      Outcome.entered args.length
        (copyArgs c args args.length (preCopyLocals args c.as_define_stack.2)
          (preCopyState args mem asp c.vfs_open.2)).1.stackptr
        (finalStackptr c.USERSTACK
          (copyArgs c args args.length (preCopyLocals args c.as_define_stack.2)
            (preCopyState args mem asp c.vfs_open.2)).1.stackptr)
        c.load_elf.2 ∧
    (copyouts (runprogram c args none mem).2.trace).length = 2 * args.length + 1 ∧
    (∀ e ∈ copyouts (runprogram c args none mem).2.trace,
      (copyArgs c args args.length (preCopyLocals args c.as_define_stack.2)
        (preCopyState args mem asp c.vfs_open.2)).1.stackptr ≤ e.lo ∧
      e.lo < e.hi ∧ e.hi ≤ c.as_define_stack.2) ∧
    (copyouts (runprogram c args none mem).2.trace).Pairwise
      (fun e1 e2 => e1.hi ≤ e2.lo ∨ e2.hi ≤ e1.lo) := by
  rw [← used_length] at hfit
  obtain ⟨r1, r2⟩ := runprogram_copyouts c args mem asp hk1 ho ha hl hs hk2 hc hlen hs0 hfit
  obtain ⟨_, h2, _⟩ :=
    copyArgs_ok c args (preCopyLocals args c.as_define_stack.2)
      (preCopyState args mem asp c.vfs_open.2) hc hlen (by simp [preCopyLocals]) hs0 hfit rfl
  rw [preCopyLocals_stackptr] at h2
  refine ⟨r1, ?_, ?_, ?_⟩
  · rw [r2]
    simp [stringEvents, ptrEvents]
    omega
  · intro e he
    rw [r2] at he
    rw [h2]
    rcases List.mem_append.mp he with h | h
    · have := stringEvents_bounds hlen (le_refl _) (by omega) h
      omega
    · have := ptrEvents_bounds (by omega) h
      omega
  · rw [r2]
    exact (allEvents_descending hlen c.bigEndian _ hfit).imp (fun h => Or.inr h)

/-- C19 at `["prog", "a", "bb"]` with the stack top at `0x80000000`: seven
calls, pairwise disjoint. -/
theorem copyout_ranges_disjoint_witness :
    (copyouts (runprogram okCollab progArgs none (fun _ => 0)).2.trace).length = 7 ∧
    (copyouts (runprogram okCollab progArgs none (fun _ => 0)).2.trace).Pairwise
      (fun e1 e2 => e1.hi ≤ e2.lo ∨ e2.hi ≤ e1.lo) :=
  ⟨(copyout_ranges_disjoint okCollab progArgs (fun _ => 0) 1 rfl rfl rfl rfl rfl rfl
      (fun _ => rfl) (by decide) (by decide) (by decide)).2.1,
   (copyout_ranges_disjoint okCollab progArgs (fun _ => 0) 1 rfl rfl rfl rfl rfl rfl
      (fun _ => rfl) (by decide) (by decide) (by decide)).2.2.2⟩

/-! ## Which bytes of the consumed region are written -/

theorem written_of_mem (tr : List Event) (a : Nat) (e : Event) (he : e ∈ copyouts tr)
    (hc : covers e a = true) : written tr a = true := by
  unfold written
  rw [List.any_eq_true]
  exact ⟨e, (List.mem_filter.mp he).1, hc⟩

theorem written_false (tr : List Event) (a : Nat)
    (h : ∀ e ∈ copyouts tr, covers e a = false) : written tr a = false := by
  unfold written
  rw [List.any_eq_false]
  intro e he
  by_cases hcp : isCopyout e = true
  · rw [h e (List.mem_filter.mpr ⟨he, hcp⟩)]
    simp
  · simp [covers, hcp]

theorem used_slot {argv : List (List Nat)} :
    ∀ (n : Nat), n ≤ argv.length → ∀ x, x < used argv n →
      ∃ i, i < n ∧ used argv i ≤ x ∧ x < used argv (i + 1) := by
  intro n
  induction n with
  | zero =>
    intro _ x hx
    rw [used_zero] at hx
    omega
  | succ n ih =>
    intro hn x hx
    rcases Nat.lt_or_ge x (used argv n) with h | h
    · obtain ⟨i, hi, h1, h2⟩ := ih (by omega) x h
      exact ⟨i, by omega, h1, h2⟩
    · exact ⟨n, by omega, h, hx⟩

theorem mem_stringEvents_of_lt (argv : List (List Nat)) (S n i : Nat) (hi : i < n) :
    Event.copyout (S - used argv n + used argv i) (cstring (argv.getD i []) ++ [0]) 0 ∈
      stringEvents argv S n := by
  simp only [stringEvents, List.mem_map, List.mem_reverse, List.mem_range]
  exact ⟨i, hi, rfl⟩

theorem mem_ptrEvents_of_lt (be : Bool) (ptrs : List Nat) (S n i : Nat) (hi : i < n) :
    Event.copyout (S - 4 * n + 4 * i) (wordBytes be (ptrs.getD i 0)) 0 ∈
      ptrEvents be ptrs S n := by
  simp only [ptrEvents, List.mem_map, List.mem_reverse, List.mem_range]
  exact ⟨i, hi, rfl⟩

/-- C17, counterexample: for `["prog", "a", "bb"]` with every copy succeeding,
the byte at `0x7fffffff` lies between the argv base `0x7fffffe0` and the initial
stack pointer `0x80000000`, yet no `copyout` stores it: it is the padding after
`"bb"` and its terminator, and it still holds what user memory held before
(170 here). -/
theorem padding_byte_unwritten :
    (runprogram okCollab progArgs none (fun _ => 170)).1 =
      Outcome.entered 3 0x7fffffe0 0x7fffffe0 0x400000 ∧
    okCollab.as_define_stack.2 = 0x80000000 ∧
    written (runprogram okCollab progArgs none (fun _ => 170)).2.trace 0x7fffffff = false ∧
    (runprogram okCollab progArgs none (fun _ => 170)).2.mem 0x7fffffff = 170 := by
  decide

/-- C17, amended: when every copy succeeds without wrap-around, every byte of
the region from the argv base address up to the initial stack pointer is stored
by some `copyout` of `runprogram`, except the alignment padding of each string
slot, the bytes from `addr[i] + strlen(args[i]) + 1` up to
`addr[i] + ROUNDUP(strlen(args[i]) + 1, 4)`, which no `copyout` stores. -/
theorem written_region (c : Collab) (args : List (List Nat)) (mem : Nat → Nat)
    (asp : Nat) (hk1 : c.kmalloc_argv = true) (ho : c.vfs_open.1 = 0)
    (ha : c.as_create = some asp) (hl : c.load_elf.1 = 0) (hs : c.as_define_stack.1 = 0)
    (hk2 : c.kmalloc_argPtrs = true) (hc : ∀ k, c.copyout k = 0)
    (hlen : ∀ b ∈ args, strlen b + 4 < WORD) (hs0 : c.as_define_stack.2 < WORD)
    (hfit : (args.map argLen).sum + 4 * (args.length + 1) ≤ c.as_define_stack.2) :
    (∀ a,
      (copyArgs c args args.length (preCopyLocals args c.as_define_stack.2)
        (preCopyState args mem asp c.vfs_open.2)).1.stackptr ≤ a →
      a < c.as_define_stack.2 →
      written (runprogram c args none mem).2.trace a = true ∨
      ∃ i, i < args.length ∧
        (copyArgs c args args.length (preCopyLocals args c.as_define_stack.2)
          (preCopyState args mem asp c.vfs_open.2)).1.argPtrs.getD i 0
            + strlen (args.getD i []) + 1 ≤ a ∧
        a < (copyArgs c args args.length (preCopyLocals args c.as_define_stack.2)
          (preCopyState args mem asp c.vfs_open.2)).1.argPtrs.getD i 0
            + argLen (args.getD i [])) ∧
    (∀ a i, i < args.length →
      (copyArgs c args args.length (preCopyLocals args c.as_define_stack.2)
        (preCopyState args mem asp c.vfs_open.2)).1.argPtrs.getD i 0
          + strlen (args.getD i []) + 1 ≤ a →
      a < (copyArgs c args args.length (preCopyLocals args c.as_define_stack.2)
        (preCopyState args mem asp c.vfs_open.2)).1.argPtrs.getD i 0
          + argLen (args.getD i []) →
      written (runprogram c args none mem).2.trace a = false) := by
  rw [← used_length] at hfit
  obtain ⟨_, r2⟩ := runprogram_copyouts c args mem asp hk1 ho ha hl hs hk2 hc hlen hs0 hfit
  obtain ⟨_, h2, h3, _⟩ :=
    copyArgs_ok c args (preCopyLocals args c.as_define_stack.2)
      (preCopyState args mem asp c.vfs_open.2) hc hlen (by simp [preCopyLocals]) hs0 hfit rfl
  rw [preCopyLocals_stackptr] at h2
  simp only [preCopyLocals_stackptr] at h3
  constructor
  · intro a hlo hhi
    rw [h2] at hlo
    rcases Nat.lt_or_ge a (c.as_define_stack.2 - used args args.length) with hp | hp
    · left
      have hm := mem_ptrEvents_of_lt c.bigEndian
        (copyArgs c args args.length (preCopyLocals args c.as_define_stack.2)
          (preCopyState args mem asp c.vfs_open.2)).1.argPtrs
        (c.as_define_stack.2 - used args args.length) (args.length + 1)
        ((a - (c.as_define_stack.2 - used args args.length - 4 * (args.length + 1))) / 4)
        (by omega)
      refine written_of_mem _ a _ (by rw [r2]; exact List.mem_append_right _ hm) ?_
      simp only [covers, isCopyout, Event.lo, Event.hi, wordBytes_length, Bool.true_and,
        Bool.and_eq_true, decide_eq_true_eq]
      omega
    · obtain ⟨i, hi, u1, u2⟩ := used_slot args.length (le_refl _)
        (a - (c.as_define_stack.2 - used args args.length)) (by omega)
      have hu := used_succ (show i < args.length by omega)
      rcases Nat.lt_or_ge a (c.as_define_stack.2 - used args args.length + used args i
          + strlen (args.getD i []) + 1) with hq | hq
      · left
        have hm := mem_stringEvents_of_lt args c.as_define_stack.2 args.length i hi
        refine written_of_mem _ a _ (by rw [r2]; exact List.mem_append_left _ hm) ?_
        simp only [covers, isCopyout, Event.lo, Event.hi, cstring_length, Bool.true_and,
          Bool.and_eq_true, decide_eq_true_eq]
        omega
      · right
        refine ⟨i, hi, ?_, ?_⟩
        · rw [h3 i hi]
          omega
        · rw [h3 i hi]
          omega
  · intro a i hi hlo hhi
    rw [h3 i hi] at hlo hhi
    have hbi := argLen_bounds (hlen _ (getD_mem hi))
    have hui := used_succ hi
    apply written_false
    intro e he
    rw [r2] at he
    rcases List.mem_append.mp he with h | h
    · obtain ⟨j, hj, rfl⟩ := mem_stringEvents h
      have hbj := argLen_bounds (hlen _ (getD_mem hj))
      have huj := used_succ hj
      simp only [covers, isCopyout, Event.lo, Event.hi, cstring_length, Bool.true_and,
        Bool.and_eq_false_iff, decide_eq_false_iff_not]
      rcases Nat.lt_trichotomy j i with hji | hji | hji
      · have := used_mono (show j + 1 ≤ i by omega) (Nat.le_of_lt hi)
        right
        omega
      · subst hji
        right
        omega
      · have := used_mono (show i + 1 ≤ j by omega) (Nat.le_of_lt hj)
        left
        omega
    · have hb := ptrEvents_bounds (by omega) h
      have hcp : covers e a = false := by
        simp only [covers, Bool.and_eq_false_iff, decide_eq_false_iff_not]
        right
        omega
      exact hcp

/-- C17, amended, at `["prog", "a", "bb"]` with the stack top at `0x80000000`:
the byte at `0x7ffffffe`, the terminator of `"bb"`, is stored by a `copyout`. -/
theorem written_region_witness :
    written (runprogram okCollab progArgs none (fun _ => 0)).2.trace 0x7ffffffe = true ∨
    ∃ i, i < progArgs.length ∧
      (copyArgs okCollab progArgs progArgs.length
        (preCopyLocals progArgs okCollab.as_define_stack.2)
        (preCopyState progArgs (fun _ => 0) 1 okCollab.vfs_open.2)).1.argPtrs.getD i 0
          + strlen (progArgs.getD i []) + 1 ≤ 0x7ffffffe ∧
      0x7ffffffe < (copyArgs okCollab progArgs progArgs.length
        (preCopyLocals progArgs okCollab.as_define_stack.2)
        (preCopyState progArgs (fun _ => 0) 1 okCollab.vfs_open.2)).1.argPtrs.getD i 0
          + argLen (progArgs.getD i []) :=
  (written_region okCollab progArgs (fun _ => 0) 1 rfl rfl rfl rfl rfl rfl (fun _ => rfl)
    (by decide) (by decide) (by decide)).1 0x7ffffffe (by decide) (by decide)

end RunProgram
